import Mathlib

/-! # esp-link client (`src/esp-link/client.cpp`)

A shallow embedding of the SLIP framing, CRC16, packet validation, request
builder and synchronisation code of `esp_link::client`, followed by theorems
about it.

Conventions of the embedding:

* bytes and machine words are natural numbers; every assignment to a
  `uint16_t` is followed by an explicit `% 65536`;
* the transport (`m_uart`) is a script `rx` of what each poll of
  `data_available()` sees (`some b`: a byte is waiting, `none`: nothing is
  waiting at that poll; after the end of the script nothing ever arrives) and
  a log `tx` of the bytes written with `send`;
* a `const packet*` is `Option (List Nat)`: `none` is `nullptr`, `some mem`
  is a pointer to memory whose contents, from the pointed-to address on, are
  `mem`;
* memory read through a pointer past the modelled contents reads as `0`.
-/

namespace esp_link

/-! ## Constants of the anonymous namespace -/

/-- End of packet. -/
def SLIP_END : Nat := 0xC0
/-- Escape. -/
def SLIP_ESC : Nat := 0xDB
/-- Escaped END. -/
def SLIP_ESC_END : Nat := 0xDC
/-- Escaped escape. -/
def SLIP_ESC_ESC : Nat := 0xDD

/-- Declarations that `client.cpp` takes from `client.hpp` and
`command_codes.hpp`, which are not part of the source at hand: the capacity of
the frame buffer, the two command codes the code compares against, the default
argument of `receive()`, and the value field of the SYNC request. -/
structure Config where
  buffer_size : Nat
  CMD_SYNC : Nat
  CMD_RESP_V : Nat
  receive_timeout : Nat
  sync_value : Nat
deriving Repr, DecidableEq

/-- The members of `client` together with the state of the transport. -/
structure Client where
  rx : List (Option Nat)
  tx : List Nat
  m_buffer : List Nat
  m_buffer_index : Nat
  m_last_was_esc : Bool
  m_syncing : Bool
  m_runningCrc : Nat
deriving Repr, DecidableEq

/-- A freshly constructed client on a transport with inbound script `rx`. -/
def Client.init (cfg : Config) (rx : List (Option Nat)) : Client :=
  { rx := rx, tx := [], m_buffer := List.replicate cfg.buffer_size 0,
    m_buffer_index := 0, m_last_was_esc := false, m_syncing := false,
    m_runningCrc := 0 }

/-! ## CRC16 -/

/-- The body of `client::crc16_add` on a platform whose `int` has `int_bits`
bits: the operands of `<<` are promoted, the shift is computed at that width,
and each assignment to the `uint16_t` accumulator truncates to 16 bits. -/
def crc16_add_int (int_bits : Nat) (value accumulator : Nat) : Nat :=
  let a1 := (accumulator ^^^ value) % 65536
  let a2 := ((a1 >>> 8) ||| ((a1 <<< 8) % 2 ^ int_bits)) % 65536
  let a3 := (a2 ^^^ (((a2 &&& 0xff00) <<< 4) % 2 ^ int_bits)) % 65536
  let a4 := (a3 ^^^ ((a3 >>> 8) >>> 4)) % 65536
  (a4 ^^^ ((a4 &&& 0xff00) >>> 5)) % 65536

/-- The function `client::crc16_add` on the AVR target (16 bit `int`); the new
value of the accumulator is returned. -/
def crc16_add (value accumulator : Nat) : Nat :=
  crc16_add_int 16 value accumulator

/-- The five-step transform as the specification words it, on an unsigned
16-bit word: xor, byte swap, and three shift-and-xor steps. -/
def crc16_spec (v a : Nat) : Nat :=
  let a1 := a ^^^ v
  let a2 := (a1 % 256) * 256 + a1 / 256
  let a3 := a2 ^^^ (((a2 &&& 0xFF00) <<< 4) % 2 ^ 16)
  let a4 := a3 ^^^ ((a3 >>> 8) >>> 4)
  a4 ^^^ ((a4 &&& 0xFF00) >>> 5)

/-- The checksum of a byte sequence: `crc16_add` folded over it from `0`. -/
def crc16 (body : List Nat) : Nat :=
  body.foldl (fun acc b => crc16_add b acc) 0

/-- The first statement of `crc16_add`, `accumulator ^= value`. -/
def crc_line1 (v a : Nat) : Nat := (a ^^^ v) % 65536
/-- The second statement of `crc16_add`, the byte swap, at `int` width `w`. -/
def crc_line2 (w a : Nat) : Nat := ((a >>> 8) ||| ((a <<< 8) % 2 ^ w)) % 65536
/-- The third statement of `crc16_add`, at `int` width `w`. -/
def crc_line3 (w a : Nat) : Nat := (a ^^^ (((a &&& 0xff00) <<< 4) % 2 ^ w)) % 65536
/-- The fourth statement of `crc16_add`. -/
def crc_line4 (a : Nat) : Nat := (a ^^^ ((a >>> 8) >>> 4)) % 65536
/-- The fifth statement of `crc16_add`. -/
def crc_line5 (a : Nat) : Nat := (a ^^^ ((a &&& 0xff00) >>> 5)) % 65536
/-- A left inverse of the fifth statement on 16-bit words (used to show that
`crc16_add` is injective). -/
def crc_unline5 (x : Nat) : Nat :=
  x ^^^ ((x &&& 0xff00) >>> 5) ^^^ ((x &&& 0xe000) >>> 10)

/-! ## Sending -/

/-- The function `client::send_direct`: the byte goes to the transport as it is. -/
def send_direct (value : Nat) (s : Client) : Client :=
  { s with tx := s.tx ++ [value] }

/-- The function `client::send_byte`: the SLIP encoder. -/
def send_byte (value : Nat) (s : Client) : Client :=
  if value = SLIP_END then
    send_direct SLIP_ESC_END (send_direct SLIP_ESC s)
  else if value = SLIP_ESC then
    send_direct SLIP_ESC_ESC (send_direct SLIP_ESC s)
  else
    send_direct value s

/-- The function `client::send (const char*)`, on the characters of the string
before its terminating NUL. -/
def send : List Nat → Client → Client
  | [], s => s
  | c :: str, s => send str (send_byte c s)

/-- The literal "sync\n". -/
def str_sync : List Nat := [0x73, 0x79, 0x6e, 0x63, 0x0a]
/-- The literal "check failed\n". -/
def str_check_failed : List Nat :=
  [0x63, 0x68, 0x65, 0x63, 0x6b, 0x20, 0x66, 0x61, 0x69, 0x6c, 0x65, 0x64, 0x0a]
/-- The literal "got packet\n". -/
def str_got_packet : List Nat :=
  [0x67, 0x6f, 0x74, 0x20, 0x70, 0x61, 0x63, 0x6b, 0x65, 0x74, 0x0a]

/-- The function `client::send_bytes (buffer, size)`: each byte is folded into
the running CRC and then SLIP encoded. `buffer` is the memory from the pointer
on, `size` the `uint8_t` count. -/
def send_bytes : List Nat → Nat → Client → Client
  | _, 0, s => s
  | buffer, size + 1, s =>
    let b := buffer.headD 0
    send_bytes buffer.tail size
      (send_byte b { s with m_runningCrc := crc16_add b s.m_runningCrc })

/-- The `n` bytes of the object representation of `v` on the little-endian
target, lowest byte first. -/
def le_bytes : Nat → Nat → List Nat
  | 0, _ => []
  | n + 1, v => (v % 256) :: le_bytes n (v / 256)

/-- Modelled from the spec: the member template `send_binary` of `client.hpp`
is missing from the source. Its argument, an integer of `nbytes` bytes, is
serialised in the byte order of the target, "each byte routed through the SLIP
encoder and accumulated into the CRC", that is through `send_bytes`. -/
def send_binary (nbytes : Nat) (value : Nat) (s : Client) : Client :=
  send_bytes (le_bytes nbytes value) nbytes s

/-- The function `client::send_request_header`. -/
def send_request_header (command value argcount : Nat) (s : Client) : Client :=
  let s := send_direct SLIP_END s
  let s := { s with m_runningCrc := 0 }
  let s := send_binary 2 command s
  let s := send_binary 2 argcount s
  send_binary 4 value s

/-- The function `client::finalize_request`. -/
def finalize_request (s : Client) : Client :=
  let crc := s.m_runningCrc
  let s := send_binary 2 crc s
  send_direct SLIP_END s

/-- The loop `while (pad--)` of `client::add_parameter_bytes`. -/
def send_padding : Nat → Client → Client
  | 0, s => s
  | pad + 1, s =>
    send_padding pad (send_direct 0 { s with m_runningCrc := crc16_add 0 s.m_runningCrc })

/-- The function `client::add_parameter_bytes (data, length)`; `length` is a
`uint16_t`, and the call of `send_bytes` converts it to that function's
`uint8_t` parameter. -/
def add_parameter_bytes (data : List Nat) (length : Nat) (s : Client) : Client :=
  let s := send_binary 2 length s
  let s := send_bytes data (length % 256) s
  let pad := (4 - (length &&& 3)) &&& 3
  send_padding pad s

/-! ## Packets and validation -/

/-- Modelled from the spec: the struct `packet` is declared in a header that is
missing from the source. The spec gives the layout "command:u16, argcount:u16,
value:u32" of a frame; `cmd` is the 16-bit field at offset 0, read in the
byte order of the target. -/
def packet_cmd (p : List Nat) : Nat :=
  p.getD 0 0 + 256 * p.getD 1 0

/-- Modelled from the spec: the field `value` of the struct `packet` (missing
header), the 32-bit field at offset 4 of the layout "command:u16, argcount:u16,
value:u32". -/
def packet_value (p : List Nat) : Nat :=
  p.getD 4 0 + 256 * p.getD 5 0 + 65536 * p.getD 6 0 + 16777216 * p.getD 7 0

/-- The loop `while (size-- > 2) crc16_add (*data++, crc)` of
`client::check_packet`; it returns the CRC and the memory at the final `data`. -/
def check_packet_loop : Nat → List Nat → Nat → Nat × List Nat
  | size + 3, data, crc =>
    check_packet_loop (size + 2) data.tail (crc16_add (data.headD 0) crc)
  | _, data, crc => (crc, data)

/-- The `uint16_t` read through `reinterpret_cast<const uint16_t*>(data)` on
the little-endian target. -/
def read_u16 (data : List Nat) : Nat :=
  data.getD 0 0 + 256 * data.getD 1 0

/-- The function `client::check_packet (buffer, size)`. -/
def check_packet (buffer : List Nat) (size : Nat) (s : Client) :
    Option (List Nat) × Client :=
  if size < 8 then (none, s)
  else
    let r := check_packet_loop size buffer 0
    if read_u16 r.2 ≠ r.1 then
      (none, send str_check_failed s)
    else
      (some buffer, send str_got_packet s)

/-- The function `client::decode_packet (buffer, size)`, with the function it
calls as `sync()` as a parameter. -/
def decode_packet_with (cfg : Config) (sync : Client → Bool × Client)
    (buffer : List Nat) (size : Nat) (s : Client) : Option (List Nat) × Client :=
  match check_packet buffer size s with
  | (some p, s1) =>
    if packet_cmd p = cfg.CMD_SYNC then (none, (sync s1).2) else (some p, s1)
  | (none, s1) => (none, s1)

/-! ## Receiving -/

/-- The assignment `m_buffer[i] = v`. The list `buf` is the memory from the
address of `m_buffer` on; a write beyond its present end lands in the memory
that follows the array, which the list then grows to cover. -/
def store (buf : List Nat) (i v : Nat) : List Nat :=
  if i < buf.length then buf.set i v
  else buf ++ List.replicate (i - buf.length) 0 ++ [v]

/-- The loop of `client::try_receive` over the inbound script, with the
function called as `sync()` as a parameter. The call of `decode_packet`
converts `m_buffer_index` to the `uint8_t` parameter `size`. -/
def try_receive_loop (cfg : Config) (sync : Client → Bool × Client) :
    List (Option Nat) → Client → Option (List Nat) × Client
  | [], s => (none, { s with rx := [] })
  | none :: rest, s => (none, { s with rx := rest })
  | some lastByte :: rest, s =>
    if lastByte = SLIP_ESC then
      try_receive_loop cfg sync rest { s with m_last_was_esc := true }
    else if lastByte = SLIP_END then
      let r := decode_packet_with cfg sync s.m_buffer (s.m_buffer_index % 256)
        { s with rx := rest }
      (r.1, { r.2 with m_buffer_index := 0, m_last_was_esc := false })
    else
      let lastByte1 :=
        if s.m_last_was_esc then
          if lastByte = SLIP_ESC_ESC then SLIP_ESC
          else if lastByte = SLIP_ESC_END then SLIP_END
          else lastByte
        else lastByte
      let s1 := { s with m_last_was_esc := false }
      let s2 :=
        if s1.m_buffer_index ≤ cfg.buffer_size then
          { s1 with m_buffer := store s1.m_buffer s1.m_buffer_index lastByte1,
                    m_buffer_index := s1.m_buffer_index + 1 }
        else s1
      try_receive_loop cfg sync rest s2

/-- The function `client::try_receive`, with `sync()` as a parameter. -/
def try_receive_with (cfg : Config) (sync : Client → Bool × Client) (s : Client) :
    Option (List Nat) × Client :=
  try_receive_loop cfg sync s.rx s

/-- The function `client::receive (timeout)`, with `sync()` as a parameter. -/
def receive_with (cfg : Config) (sync : Client → Bool × Client) :
    Nat → Client → Option (List Nat) × Client
  | 0, s => (none, s)
  | timeout + 1, s =>
    match try_receive_with cfg sync s with
    | (some p, s1) => (some p, s1)
    | (none, s1) => receive_with cfg sync timeout s1

/-- The loop `while (m_uart->data_available()) m_uart->get()` on the script. -/
def clear_input_loop : List (Option Nat) → List (Option Nat)
  | [] => []
  | none :: rest => rest
  | some _ :: rest => clear_input_loop rest

/-- The function `client::clear_input`. -/
def clear_input (s : Client) : Client :=
  { s with rx := clear_input_loop s.rx }

/-! ## Synchronisation -/

/-- Modelled from the spec: the member template `execute` and the command
object `esp_link::sync` are declared in headers missing from the source. The
spec says of this call "then send a formal SYNC command request": a request
frame with the SYNC command and no parameters. -/
def execute_sync (cfg : Config) (s : Client) : Client :=
  finalize_request (send_request_header cfg.CMD_SYNC cfg.sync_value 0 s)

/-- The loop `while ((p = receive()))` of `client::sync` together with the two
statements after it. Every packet that `receive` returns has consumed a byte of
the script, so `fuel` above the length of the script is never used up. -/
def sync_wait (cfg : Config) (sync : Client → Bool × Client) :
    Nat → Client → Bool × Client
  | 0, s => (false, { s with m_syncing := false })
  | fuel + 1, s =>
    match receive_with cfg sync cfg.receive_timeout s with
    | (some p, s1) =>
      if packet_cmd p = cfg.CMD_RESP_V then (true, { s1 with m_syncing := false })
      else sync_wait cfg sync fuel s1
    | (none, s1) => (false, { s1 with m_syncing := false })

/-- The function `client::sync`, with the function that a nested call of
`sync()` (from `decode_packet`) runs as a parameter. -/
def sync_with (cfg : Config) (nested : Client → Bool × Client) (s : Client) :
    Bool × Client :=
  if !s.m_syncing then
    let s := send str_sync s
    let s := { s with m_syncing := true }
    let s := clear_input s
    let s := send_direct SLIP_END s
    let s := clear_input s
    let s := execute_sync cfg s
    sync_wait cfg nested (s.rx.length + 1) s
  else (false, s)

/-- A call of `sync()` entered while `m_syncing` is set (`// never recurse`):
the guarded block is skipped and `false` is returned. -/
def sync_reentered (s : Client) : Bool × Client := (false, s)

/-- The function `client::sync`. While its body runs `m_syncing` is set, so a
nested call is a re-entered one. -/
def sync (cfg : Config) (s : Client) : Bool × Client :=
  sync_with cfg sync_reentered s

/-- The function `client::decode_packet`. -/
def decode_packet (cfg : Config) (buffer : List Nat) (size : Nat) (s : Client) :
    Option (List Nat) × Client :=
  decode_packet_with cfg (sync cfg) buffer size s

/-- The function `client::try_receive`. -/
def try_receive (cfg : Config) (s : Client) : Option (List Nat) × Client :=
  try_receive_with cfg (sync cfg) s

/-- The function `client::receive`. -/
def receive (cfg : Config) (timeout : Nat) (s : Client) : Option (List Nat) × Client :=
  receive_with cfg (sync cfg) timeout s

/-! ## Auxiliary notions used in the statements -/

/-- A client whose members and transport are all blank. -/
def Client.blank : Client :=
  { rx := [], tx := [], m_buffer := [], m_buffer_index := 0, m_last_was_esc := false,
    m_syncing := false, m_runningCrc := 0 }

/-- The wire bytes that `send_byte` writes for the bytes of `d`, in order: the
transport log after sending them from a blank client. -/
def slip_encode (d : List Nat) : List Nat :=
  (send d Client.blank).tx

/-- The frame `f` with bit `i` flipped: bit `i % 8` of the byte at `i / 8`. -/
def flip_bit (f : List Nat) (i : Nat) : List Nat :=
  f.set (i / 8) (f.getD (i / 8) 0 ^^^ 2 ^ (i % 8))

/-- Successive stores of the bytes of `d` from index `i` on. -/
def store_list : List Nat → Nat → List Nat → List Nat
  | buf, _, [] => buf
  | buf, i, v :: d => store_list (store buf i v) (i + 1) d

/-- One call of `add_parameter_bytes (data, length)` for each parameter, with
`length` the number of bytes of its data. -/
def add_parameters : List (List Nat) → Client → Client
  | [], s => s
  | data :: params, s => add_parameters params (add_parameter_bytes data data.length s)

/-- The layout of one parameter in a frame: its little-endian 16-bit length,
its data, and zero padding to a multiple of four data bytes. -/
def parameter_layout (data : List Nat) : List Nat :=
  le_bytes 2 data.length ++ data ++ List.replicate ((4 - data.length % 4) % 4) 0

/-- The layouts of the parameters of a frame, one after the other. -/
def parameters_layout : List (List Nat) → List Nat
  | [] => []
  | data :: params => parameter_layout data ++ parameters_layout params

/-- The layout of the body of a request frame: command, argument count, value,
then the parameters. -/
def request_body (command value argcount : Nat) (params : List (List Nat)) : List Nat :=
  le_bytes 2 command ++ le_bytes 2 argcount ++ le_bytes 4 value ++ parameters_layout params

/-- The state after `k` successive calls of `try_receive`. -/
def after_try_receives (cfg : Config) : Nat → Client → Client
  | 0, s => s
  | k + 1, s => after_try_receives cfg k (try_receive cfg s).2

/-- The state after `k` successive calls of `receive()` (with its default
timeout). -/
def after_receives (cfg : Config) : Nat → Client → Client
  | 0, s => s
  | k + 1, s => after_receives cfg k (receive cfg cfg.receive_timeout s).2

/-- One round of the bit-serial CRC: shift right by one, and XOR with `0x8408`
if the bit shifted out was 1. -/
def kermit_round (x : Nat) : Nat :=
  (x >>> 1) ^^^ (if x % 2 = 1 then 0x8408 else 0)

/-- The bit-serial reflected CCITT (CRC-16/KERMIT) byte update in the words of
the claim: XOR `v` into the low byte of `a`, then eight rounds. -/
def crc16_kermit (v a : Nat) : Nat :=
  kermit_round (kermit_round (kermit_round (kermit_round
    (kermit_round (kermit_round (kermit_round (kermit_round (a ^^^ v))))))))

/-- The statements of `client::sync` between the test of the guard flag and the
loop: the state in which the loop starts, after the SYNC request was sent. -/
def sync_prelude (cfg : Config) (s : Client) : Client :=
  execute_sync cfg (clear_input (send_direct SLIP_END
    (clear_input { send str_sync s with m_syncing := true })))

end esp_link

/-! # Theorems -/

namespace esp_link

/-! ## The CRC step -/

theorem crc16_add_int_lines (w v a : Nat) :
    crc16_add_int w v a = crc_line5 (crc_line4 (crc_line3 w (crc_line2 w (crc_line1 v a)))) := rfl

theorem testBit_ff00 (i : Nat) :
    Nat.testBit 0xff00 i = (decide (8 ≤ i) && decide (i < 16)) := by
  have h : (0xff00 : Nat) = (2 ^ 8 - 1) <<< 8 := by decide
  rw [h, Nat.testBit_shiftLeft, Nat.testBit_two_pow_sub_one]
  by_cases h1 : 8 ≤ i <;> by_cases h2 : i < 16 <;> simp [h1, h2] <;> omega

theorem testBit_e000 (i : Nat) :
    Nat.testBit 0xe000 i = (decide (13 ≤ i) && decide (i < 16)) := by
  have h : (0xe000 : Nat) = (2 ^ 3 - 1) <<< 13 := by decide
  rw [h, Nat.testBit_shiftLeft, Nat.testBit_two_pow_sub_one]
  by_cases h1 : 13 ≤ i <;> by_cases h2 : i < 16 <;> simp [h1, h2] <;> omega

theorem two_pow_16 : (65536 : Nat) = 2 ^ 16 := by norm_num

theorem testBit_of_lt_65536 {x : Nat} (hx : x < 65536) {i : Nat} (hi : 16 ≤ i) :
    x.testBit i = false := by
  apply Nat.testBit_lt_two_pow
  calc x < 2 ^ 16 := by rw [← two_pow_16]; exact hx
    _ ≤ 2 ^ i := Nat.pow_le_pow_right (by norm_num) hi

theorem crc_line2_invol (w : Nat) (hw : 16 ≤ w) (x : Nat) (hx : x < 65536) :
    crc_line2 w (crc_line2 w x) = x := by
  apply Nat.eq_of_testBit_eq
  intro i
  simp only [crc_line2, two_pow_16, Nat.testBit_mod_two_pow, Nat.testBit_xor, Nat.testBit_or,
    Nat.testBit_shiftRight, Nat.testBit_shiftLeft, Nat.testBit_and, testBit_ff00]
  by_cases h1 : i < 16
  · by_cases h2 : 8 ≤ i
    · have h3 : i < w := by omega
      have h4 : ¬ (8 + i < 16) := by omega
      have h5 : i - 8 < 16 := by omega
      have h6 : i - 8 < w := by omega
      have h7 : ¬ (8 ≤ i - 8) := by omega
      have h8 : 8 + (i - 8) = i := by omega
      simp [h1, h2, h3, h4, h5, h6, h7, h8]
    · have h3 : i < w := by omega
      have h4 : 8 + i < 16 := by omega
      have h5 : 8 + i < w := by omega
      have h6 : 8 + i - 8 = i := by omega
      have h7 : x.testBit (8 + (8 + i)) = false := testBit_of_lt_65536 hx (by omega)
      simp [h1, h2, h3, h4, h5, h6, h7]
  · simp [h1, testBit_of_lt_65536 hx (by omega : 16 ≤ i)]

theorem crc_line4_invol (x : Nat) (hx : x < 65536) :
    crc_line4 (crc_line4 x) = x := by
  have hb : ∀ j, 16 ≤ j → x.testBit j = false := fun j hj => testBit_of_lt_65536 hx hj
  apply Nat.eq_of_testBit_eq
  intro i
  simp only [crc_line4, two_pow_16, Nat.testBit_mod_two_pow, Nat.testBit_xor, Nat.testBit_or,
    Nat.testBit_shiftRight, Nat.testBit_shiftLeft, Nat.testBit_and, testBit_ff00]
  by_cases h1 : i < 16
  · interval_cases i <;> simp [hb]
  · simp [h1, hb i (by omega)]

theorem crc_unline5_line5 (x : Nat) (hx : x < 65536) :
    crc_unline5 (crc_line5 x) = x := by
  have hb : ∀ j, 16 ≤ j → x.testBit j = false := fun j hj => testBit_of_lt_65536 hx hj
  apply Nat.eq_of_testBit_eq
  intro i
  simp only [crc_line5, crc_unline5, two_pow_16, Nat.testBit_mod_two_pow, Nat.testBit_xor,
    Nat.testBit_or, Nat.testBit_shiftRight, Nat.testBit_shiftLeft, Nat.testBit_and,
    testBit_ff00, testBit_e000]
  by_cases h1 : i < 16
  · interval_cases i <;> simp [hb]
  · have h2 : ¬ (5 + i < 16) := by omega
    have h3 : ¬ (10 + i < 16) := by omega
    simp [h1, h2, h3, hb i (by omega)]

theorem crc_line3_invol (w : Nat) (hw : 16 ≤ w) (x : Nat) (hx : x < 65536) :
    crc_line3 w (crc_line3 w x) = x := by
  apply Nat.eq_of_testBit_eq
  intro i
  simp only [crc_line3, two_pow_16, Nat.testBit_mod_two_pow, Nat.testBit_xor, Nat.testBit_or,
    Nat.testBit_shiftRight, Nat.testBit_shiftLeft, Nat.testBit_and, testBit_ff00]
  by_cases h1 : i < 16
  · have h3 : i < w := by omega
    by_cases h2 : 12 ≤ i
    · have h4 : 4 ≤ i := by omega
      have h5 : 8 ≤ i - 4 := by omega
      have h6 : i - 4 < 16 := by omega
      have h7 : i - 4 < w := by omega
      have h8 : ¬ (8 ≤ i - 4 - 4) := by omega
      simp [h1, h3, h4, h5, h6, h7, h8]
    · have h5 : ¬ (8 ≤ i - 4) := by omega
      simp [h1, h3, h5]
  · simp [h1, testBit_of_lt_65536 hx (by omega : 16 ≤ i)]

theorem mod_65536_lt (x : Nat) : x % 65536 < 65536 := Nat.mod_lt _ (by norm_num)

theorem crc_line1_lt (v a : Nat) : crc_line1 v a < 65536 := mod_65536_lt _
theorem crc_line2_lt (w a : Nat) : crc_line2 w a < 65536 := mod_65536_lt _
theorem crc_line3_lt (w a : Nat) : crc_line3 w a < 65536 := mod_65536_lt _
theorem crc_line4_lt (a : Nat) : crc_line4 a < 65536 := mod_65536_lt _
theorem crc_line5_lt (a : Nat) : crc_line5 a < 65536 := mod_65536_lt _

theorem crc16_add_int_lt (w v a : Nat) : crc16_add_int w v a < 65536 := mod_65536_lt _

theorem crc16_add_lt (v a : Nat) : crc16_add v a < 65536 := mod_65536_lt _

/-- The four statements after the first are injective on 16-bit words. -/
theorem crc_lines_inj (w : Nat) (hw : 16 ≤ w) (x y : Nat) (hx : x < 65536) (hy : y < 65536)
    (h : crc_line5 (crc_line4 (crc_line3 w (crc_line2 w x)))
       = crc_line5 (crc_line4 (crc_line3 w (crc_line2 w y)))) : x = y := by
  have e5 := congrArg crc_unline5 h
  rw [crc_unline5_line5 _ (crc_line4_lt _), crc_unline5_line5 _ (crc_line4_lt _)] at e5
  have e4 := congrArg crc_line4 e5
  rw [crc_line4_invol _ (crc_line3_lt _ _), crc_line4_invol _ (crc_line3_lt _ _)] at e4
  have e3 := congrArg (crc_line3 w) e4
  rw [crc_line3_invol w hw _ (crc_line2_lt _ _), crc_line3_invol w hw _ (crc_line2_lt _ _)] at e3
  have e2 := congrArg (crc_line2 w) e3
  rwa [crc_line2_invol w hw _ hx, crc_line2_invol w hw _ hy] at e2

theorem xor_lt_65536 {a v : Nat} (ha : a < 65536) (hv : v < 65536) : a ^^^ v < 65536 := by
  rw [two_pow_16] at *
  exact Nat.xor_lt_two_pow ha hv

/-- Two 16-bit accumulators that `crc16_add` maps to the same word are equal. -/
theorem crc16_add_inj_acc {v a b : Nat} (hv : v < 65536) (ha : a < 65536) (hb : b < 65536)
    (h : crc16_add v a = crc16_add v b) : a = b := by
  unfold crc16_add at h
  rw [crc16_add_int_lines, crc16_add_int_lines] at h
  have h1 := crc_lines_inj 16 (le_refl _) _ _ (crc_line1_lt _ _) (crc_line1_lt _ _) h
  unfold crc_line1 at h1
  rw [Nat.mod_eq_of_lt (xor_lt_65536 ha hv), Nat.mod_eq_of_lt (xor_lt_65536 hb hv)] at h1
  exact Nat.xor_left_injective h1

/-- Two bytes that `crc16_add` folds into one accumulator with the same result are equal. -/
theorem crc16_add_inj_val {v u a : Nat} (hv : v < 65536) (hu : u < 65536) (ha : a < 65536)
    (h : crc16_add v a = crc16_add u a) : v = u := by
  unfold crc16_add at h
  rw [crc16_add_int_lines, crc16_add_int_lines] at h
  have h1 := crc_lines_inj 16 (le_refl _) _ _ (crc_line1_lt _ _) (crc_line1_lt _ _) h
  unfold crc_line1 at h1
  rw [Nat.mod_eq_of_lt (xor_lt_65536 ha hv), Nat.mod_eq_of_lt (xor_lt_65536 ha hu)] at h1
  exact Nat.xor_right_injective h1

theorem byte_swap_eq (x : Nat) (hx : x < 65536) :
    (x % 256) * 256 + x / 256 = ((x % 2 ^ 8) <<< 8) ||| (x >>> 8) := by
  rw [Nat.shiftLeft_eq, Nat.shiftRight_eq_div_pow]
  have h := Nat.mul_add_lt_is_or (i := 8) (b := x / 2 ^ 8)
    (by norm_num; omega) (x % 2 ^ 8)
  rw [Nat.mul_comm (x % 2 ^ 8) (2 ^ 8), ← h]
  norm_num
  omega

theorem crc_line1_spec (v a : Nat) (hv : v < 65536) (ha : a < 65536) :
    crc_line1 v a = a ^^^ v := by
  unfold crc_line1
  exact Nat.mod_eq_of_lt (xor_lt_65536 ha hv)

theorem crc_line2_spec (w : Nat) (hw : 16 ≤ w) (x : Nat) (hx : x < 65536) :
    crc_line2 w x = (x % 256) * 256 + x / 256 := by
  have hb : ∀ j, 16 ≤ j → x.testBit j = false := fun j hj => testBit_of_lt_65536 hx hj
  have hlt : ∀ j, j < 16 → j < w := fun j hj => by omega
  rw [byte_swap_eq x hx]
  apply Nat.eq_of_testBit_eq
  intro i
  simp only [crc_line2, two_pow_16, Nat.testBit_mod_two_pow, Nat.testBit_xor, Nat.testBit_or,
    Nat.testBit_shiftRight, Nat.testBit_shiftLeft, Nat.testBit_and, testBit_ff00]
  by_cases h1 : i < 16
  · interval_cases i <;> simp [hb, hlt]
  · have h2 : x.testBit (8 + i) = false := hb _ (by omega)
    have h3 : ¬ (i - 8 < 8) := by omega
    simp [h1, h2, h3]

theorem crc_line3_spec (w : Nat) (hw : 16 ≤ w) (x : Nat) (hx : x < 65536) :
    crc_line3 w x = x ^^^ (((x &&& 0xFF00) <<< 4) % 2 ^ 16) := by
  have hb : ∀ j, 16 ≤ j → x.testBit j = false := fun j hj => testBit_of_lt_65536 hx hj
  have hlt : ∀ j, j < 16 → j < w := fun j hj => by omega
  apply Nat.eq_of_testBit_eq
  intro i
  simp only [crc_line3, two_pow_16, Nat.testBit_mod_two_pow, Nat.testBit_xor, Nat.testBit_or,
    Nat.testBit_shiftRight, Nat.testBit_shiftLeft, Nat.testBit_and, testBit_ff00]
  by_cases h1 : i < 16
  · interval_cases i <;> simp [hb, hlt]
  · simp [h1, hb i (by omega)]

theorem crc_line4_spec (x : Nat) (hx : x < 65536) :
    crc_line4 x = x ^^^ ((x >>> 8) >>> 4) := by
  have hb : ∀ j, 16 ≤ j → x.testBit j = false := fun j hj => testBit_of_lt_65536 hx hj
  apply Nat.eq_of_testBit_eq
  intro i
  simp only [crc_line4, two_pow_16, Nat.testBit_mod_two_pow, Nat.testBit_xor, Nat.testBit_or,
    Nat.testBit_shiftRight, Nat.testBit_shiftLeft, Nat.testBit_and, testBit_ff00]
  by_cases h1 : i < 16
  · simp [h1]
  · simp [h1, hb i (by omega), hb (8 + (4 + i)) (by omega)]

theorem crc_line5_spec (x : Nat) (hx : x < 65536) :
    crc_line5 x = x ^^^ ((x &&& 0xFF00) >>> 5) := by
  have hb : ∀ j, 16 ≤ j → x.testBit j = false := fun j hj => testBit_of_lt_65536 hx hj
  apply Nat.eq_of_testBit_eq
  intro i
  simp only [crc_line5, two_pow_16, Nat.testBit_mod_two_pow, Nat.testBit_xor, Nat.testBit_or,
    Nat.testBit_shiftRight, Nat.testBit_shiftLeft, Nat.testBit_and, testBit_ff00]
  by_cases h1 : i < 16
  · simp [h1]
  · simp [h1, hb i (by omega), hb (5 + i) (by omega)]

theorem crc16_add_int_eq_spec (w : Nat) (hw : 16 ≤ w) (v a : Nat) (hv : v < 256)
    (ha : a < 65536) : crc16_add_int w v a = crc16_spec v a := by
  rw [crc16_add_int_lines]
  have e1 := crc_line1_spec v a (by omega) ha
  have e2 := crc_line2_spec w hw (crc_line1 v a) (crc_line1_lt _ _)
  have e3 := crc_line3_spec w hw (crc_line2 w (crc_line1 v a)) (crc_line2_lt _ _)
  have e4 := crc_line4_spec (crc_line3 w (crc_line2 w (crc_line1 v a))) (crc_line3_lt _ _)
  have e5 := crc_line5_spec (crc_line4 (crc_line3 w (crc_line2 w (crc_line1 v a))))
    (crc_line4_lt _)
  rw [e5, e4, e3, e2, e1]
  rfl


/-- C5. For every byte `v` and every 16-bit accumulator `a`, `crc16_add` leaves
the accumulator equal to the five-step transform of the specification on a
16-bit word, the result is a 16-bit word, and the width of `int` at which the
C++ expressions are evaluated (16 bits or more) does not change it. -/
theorem crc16_add_bit_exact (v a : Nat) (hv : v < 256) (ha : a < 65536) :
    crc16_add v a = crc16_spec v a ∧ crc16_spec v a < 65536 ∧
      ∀ int_bits, 16 ≤ int_bits → crc16_add_int int_bits v a = crc16_spec v a := by
  have h16 : crc16_add v a = crc16_spec v a :=
    crc16_add_int_eq_spec 16 (le_refl _) v a hv ha
  refine ⟨h16, ?_, fun w hw => crc16_add_int_eq_spec w hw v a hv ha⟩
  rw [← h16]
  exact crc16_add_lt v a

/-- C5 at `v = 0x31`, `a = 0xFFFF`. -/
theorem crc16_add_bit_exact_witness :
    crc16_add 0x31 0xFFFF = crc16_spec 0x31 0xFFFF ∧ crc16_spec 0x31 0xFFFF < 65536 ∧
      ∀ int_bits, 16 ≤ int_bits → crc16_add_int int_bits 0x31 0xFFFF = crc16_spec 0x31 0xFFFF :=
  crc16_add_bit_exact 0x31 0xFFFF (by decide) (by decide)

/-! ## The SLIP encoder -/

theorem send_byte_eq (v : Nat) (s : Client) :
    send_byte v s = { s with tx := s.tx ++
      (if v = 0xC0 then [0xDB, 0xDC] else if v = 0xDB then [0xDB, 0xDD] else [v]) } := by
  unfold send_byte send_direct SLIP_END SLIP_ESC SLIP_ESC_END SLIP_ESC_ESC
  by_cases h1 : v = 0xC0
  · simp [h1]
  · by_cases h2 : v = 0xDB
    · simp [h2]
    · simp [h1, h2]

/-- C7. For every byte `v`, `send_byte v` appends to the transport exactly
`0xDB, 0xDC` when `v = 0xC0`, exactly `0xDB, 0xDD` when `v = 0xDB`, and exactly
`v` otherwise, and changes nothing else; none of the bytes it appends is the
frame delimiter `0xC0`. -/
theorem send_byte_table (v : Nat) (s : Client) :
    send_byte v s =
        { s with tx := s.tx ++
          (if v = 0xC0 then [0xDB, 0xDC] else if v = 0xDB then [0xDB, 0xDD] else [v]) } ∧
      (0xC0 : Nat) ∉
        (if v = 0xC0 then [0xDB, 0xDC] else if v = 0xDB then [0xDB, 0xDD] else [v]) := by
  refine ⟨send_byte_eq v s, ?_⟩
  by_cases h1 : v = 0xC0
  · simp [h1]
  · by_cases h2 : v = 0xDB
    · simp [h2]
    · simp only [h1, h2, if_false, List.mem_singleton]
      exact fun h => h1 h.symm

/-! ## The validator -/

theorem check_packet_lt_8 (buffer : List Nat) (size : Nat) (s : Client) (h : size < 8) :
    check_packet buffer size s = (none, s) := by
  unfold check_packet
  simp [h]

/-- C8. For every buffer content, every size below 8 and every client state,
`check_packet` returns nothing (and leaves the client as it was), whatever the
last two bytes are. -/
theorem check_packet_short (buffer : List Nat) (size : Nat) (s : Client) (h : size < 8) :
    check_packet buffer size s = (none, s) :=
  check_packet_lt_8 buffer size s h

/-- C8 on a seven byte frame whose last two bytes are the CRC16 of the five
bytes before them. -/
theorem check_packet_short_witness :
    7 < 8 ∧ read_u16 [0x9B, 0xED] = crc16 [1, 2, 3, 4, 5] ∧
      check_packet [1, 2, 3, 4, 5, 0x9B, 0xED] 7 Client.blank = (none, Client.blank) :=
  ⟨by decide, by decide, check_packet_short [1, 2, 3, 4, 5, 0x9B, 0xED] 7 Client.blank (by decide)⟩


/-! ## Synchronisation and the decode path -/

/-- C10. In every client state in which the guard flag `m_syncing` is already
set, `sync()` returns `false` and leaves the whole state as it was: nothing is
written to or read from the transport, and the guard flag, frame buffer, buffer
index, escape flag and running CRC are unchanged. -/
theorem sync_reentrant (cfg : Config) (s : Client) (h : s.m_syncing = true) :
    sync cfg s = (false, s) := by
  unfold sync sync_with
  simp [h]

/-- C10 on a client that is in the middle of a synchronisation, with bytes
waiting on the transport. -/
theorem sync_reentrant_witness :
    ({ Client.blank with m_syncing := true, rx := [some 0xC0] } : Client).m_syncing = true ∧
      sync ⟨128, 1, 2, 1000, 0⟩ { Client.blank with m_syncing := true, rx := [some 0xC0] }
        = (false, { Client.blank with m_syncing := true, rx := [some 0xC0] }) :=
  ⟨rfl, sync_reentrant ⟨128, 1, 2, 1000, 0⟩
    { Client.blank with m_syncing := true, rx := [some 0xC0] } rfl⟩

theorem decode_packet_with_some (cfg : Config) (sync : Client → Bool × Client)
    (buffer : List Nat) (size : Nat) (s : Client) (p : List Nat)
    (h : (decode_packet_with cfg sync buffer size s).1 = some p) :
    packet_cmd p ≠ cfg.CMD_SYNC ∧ p = buffer ∧
      (decode_packet_with cfg sync buffer size s).2 = send str_got_packet s := by
  unfold decode_packet_with check_packet at *
  by_cases h1 : size < 8
  · simp [h1] at h
  · by_cases h2 : read_u16 (check_packet_loop size buffer 0).2 ≠ (check_packet_loop size buffer 0).1
    · simp [h1, h2] at h
    · by_cases h3 : packet_cmd buffer = cfg.CMD_SYNC
      · simp [h1, h2, h3] at h
      · simp only [h1, h2, h3, if_false] at h ⊢
        simp only [Option.some.injEq] at h
        subst h
        exact ⟨h3, rfl, trivial⟩

theorem decode_packet_with_sync (cfg : Config) (sync : Client → Bool × Client)
    (buffer : List Nat) (size : Nat) (s : Client) (p : List Nat) (s1 : Client)
    (h : check_packet buffer size s = (some p, s1)) (hc : packet_cmd p = cfg.CMD_SYNC) :
    decode_packet_with cfg sync buffer size s = (none, (sync s1).2) := by
  unfold decode_packet_with
  rw [h]
  simp [hc]

theorem send_direct_fields (v : Nat) (s : Client) :
    (send_direct v s).m_buffer = s.m_buffer ∧ (send_direct v s).rx = s.rx ∧
    (send_direct v s).m_buffer_index = s.m_buffer_index ∧
    (send_direct v s).m_last_was_esc = s.m_last_was_esc ∧
    (send_direct v s).m_syncing = s.m_syncing ∧
    (send_direct v s).m_runningCrc = s.m_runningCrc := by
  simp [send_direct]

theorem send_byte_fields (v : Nat) (s : Client) :
    (send_byte v s).m_buffer = s.m_buffer ∧ (send_byte v s).rx = s.rx ∧
    (send_byte v s).m_buffer_index = s.m_buffer_index ∧
    (send_byte v s).m_last_was_esc = s.m_last_was_esc ∧
    (send_byte v s).m_syncing = s.m_syncing ∧
    (send_byte v s).m_runningCrc = s.m_runningCrc := by
  rw [send_byte_eq]
  simp

theorem send_fields (str : List Nat) (s : Client) :
    (send str s).m_buffer = s.m_buffer ∧ (send str s).rx = s.rx ∧
    (send str s).m_buffer_index = s.m_buffer_index ∧
    (send str s).m_last_was_esc = s.m_last_was_esc ∧
    (send str s).m_syncing = s.m_syncing ∧
    (send str s).m_runningCrc = s.m_runningCrc := by
  induction str generalizing s with
  | nil => simp [send]
  | cons c str ih =>
    have h1 := ih (send_byte c s)
    have h2 := send_byte_fields c s
    simp only [send]
    refine ⟨?_, ?_, ?_, ?_, ?_, ?_⟩
    · rw [h1.1, h2.1]
    · rw [h1.2.1, h2.2.1]
    · rw [h1.2.2.1, h2.2.2.1]
    · rw [h1.2.2.2.1, h2.2.2.2.1]
    · rw [h1.2.2.2.2.1, h2.2.2.2.2.1]
    · rw [h1.2.2.2.2.2, h2.2.2.2.2.2]

theorem try_receive_loop_esc (cfg : Config) (sync : Client → Bool × Client)
    (rest : List (Option Nat)) (s : Client) :
    try_receive_loop cfg sync (some SLIP_ESC :: rest) s
      = try_receive_loop cfg sync rest { s with m_last_was_esc := true } := by
  rw [try_receive_loop]
  simp

theorem try_receive_loop_end (cfg : Config) (sync : Client → Bool × Client)
    (rest : List (Option Nat)) (s : Client) :
    try_receive_loop cfg sync (some SLIP_END :: rest) s
      = ((decode_packet_with cfg sync s.m_buffer (s.m_buffer_index % 256)
            { s with rx := rest }).1,
         { (decode_packet_with cfg sync s.m_buffer (s.m_buffer_index % 256)
            { s with rx := rest }).2 with m_buffer_index := 0, m_last_was_esc := false }) := by
  rw [try_receive_loop]
  have h : SLIP_END ≠ SLIP_ESC := by decide
  simp [h]

theorem try_receive_loop_data (cfg : Config) (sync : Client → Bool × Client)
    (b : Nat) (rest : List (Option Nat)) (s : Client)
    (h1 : b ≠ SLIP_ESC) (h2 : b ≠ SLIP_END) :
    try_receive_loop cfg sync (some b :: rest) s
      = try_receive_loop cfg sync rest
          (if s.m_buffer_index ≤ cfg.buffer_size then
            { s with
              m_last_was_esc := false,
              m_buffer := store s.m_buffer s.m_buffer_index
                (if s.m_last_was_esc then
                  if b = SLIP_ESC_ESC then SLIP_ESC
                  else if b = SLIP_ESC_END then SLIP_END
                  else b
                else b),
              m_buffer_index := s.m_buffer_index + 1 }
          else { s with m_last_was_esc := false }) := by
  rw [try_receive_loop]
  simp only [h1, h2, if_false]

theorem try_receive_loop_some (cfg : Config) (sync : Client → Bool × Client)
    (rx : List (Option Nat)) (s : Client) (p : List Nat)
    (h : (try_receive_loop cfg sync rx s).1 = some p) :
    packet_cmd p ≠ cfg.CMD_SYNC ∧ p = (try_receive_loop cfg sync rx s).2.m_buffer := by
  induction rx generalizing s with
  | nil => simp [try_receive_loop] at h
  | cons x rest ih =>
    cases x with
    | none => simp [try_receive_loop] at h
    | some b =>
      by_cases h1 : b = SLIP_ESC
      · subst h1
        rw [try_receive_loop_esc] at h ⊢
        exact ih _ h
      · by_cases h2 : b = SLIP_END
        · subst h2
          rw [try_receive_loop_end] at h ⊢
          have hd := decode_packet_with_some cfg sync _ _ _ p h
          refine ⟨hd.1, ?_⟩
          show p = (decode_packet_with cfg sync s.m_buffer (s.m_buffer_index % 256)
            { s with rx := rest }).2.m_buffer
          rw [hd.2.2, (send_fields _ _).1]
          exact hd.2.1
        · rw [try_receive_loop_data cfg sync b rest s h1 h2] at h ⊢
          exact ih _ h

theorem receive_with_some (cfg : Config) (sync : Client → Bool × Client)
    (timeout : Nat) (s : Client) (p : List Nat)
    (h : (receive_with cfg sync timeout s).1 = some p) :
    packet_cmd p ≠ cfg.CMD_SYNC ∧ p = (receive_with cfg sync timeout s).2.m_buffer := by
  induction timeout generalizing s with
  | zero => simp [receive_with] at h
  | succ t ih =>
    unfold receive_with at h ⊢
    cases hr : try_receive_with cfg sync s with
    | mk r s1 =>
      cases r with
      | none =>
        simp only [hr] at h ⊢
        exact ih s1 h
      | some q =>
        simp only [hr] at h ⊢
        simp only [Option.some.injEq] at h
        subst h
        have := try_receive_loop_some cfg sync s.rx s q (by
          have : try_receive_loop cfg sync s.rx s = (some q, s1) := hr
          rw [this])
        have e : try_receive_loop cfg sync s.rx s = (some q, s1) := hr
        rw [e] at this
        exact this

/-- C9. In every client state and for every frame: a packet that
`decode_packet` returns never has the SYNC command; when `check_packet`
validates a frame whose command is SYNC, `decode_packet` calls `sync()` on the
state `check_packet` left and returns nothing; and a packet returned by
`try_receive` or by `receive` (a view of the frame buffer as it is on return)
never has the SYNC command. -/
theorem decode_packet_intercepts_sync (cfg : Config) (s : Client) :
    (∀ buffer size p, (decode_packet cfg buffer size s).1 = some p →
        packet_cmd p ≠ cfg.CMD_SYNC) ∧
    (∀ buffer size p s1, check_packet buffer size s = (some p, s1) →
        packet_cmd p = cfg.CMD_SYNC →
        decode_packet cfg buffer size s = (none, (sync cfg s1).2)) ∧
    (∀ p, (try_receive cfg s).1 = some p →
        packet_cmd p ≠ cfg.CMD_SYNC ∧ p = (try_receive cfg s).2.m_buffer) ∧
    (∀ timeout p, (receive cfg timeout s).1 = some p →
        packet_cmd p ≠ cfg.CMD_SYNC ∧ p = (receive cfg timeout s).2.m_buffer) := by
  refine ⟨?_, ?_, ?_, ?_⟩
  · intro buffer size p h
    exact (decode_packet_with_some cfg (sync cfg) buffer size s p h).1
  · intro buffer size p s1 h hc
    exact decode_packet_with_sync cfg (sync cfg) buffer size s p s1 h hc
  · intro p h
    exact try_receive_loop_some cfg (sync cfg) s.rx s p h
  · intro timeout p h
    exact receive_with_some cfg (sync cfg) timeout s p h

/-- C9 on a valid SYNC frame (command 1, no arguments, value 0): `check_packet`
accepts it, and `decode_packet` hands control to `sync()` and returns nothing. -/
theorem decode_packet_intercepts_sync_witness :
    check_packet [1, 0, 0, 0, 0, 0, 0, 0, 191, 129] 10 Client.blank
        = (some [1, 0, 0, 0, 0, 0, 0, 0, 191, 129], send str_got_packet Client.blank) ∧
      packet_cmd [1, 0, 0, 0, 0, 0, 0, 0, 191, 129] = 1 ∧
      decode_packet ⟨128, 1, 2, 1000, 0⟩ [1, 0, 0, 0, 0, 0, 0, 0, 191, 129] 10 Client.blank
        = (none, (sync ⟨128, 1, 2, 1000, 0⟩ (send str_got_packet Client.blank)).2) :=
  ⟨by decide, by decide,
    (decode_packet_intercepts_sync ⟨128, 1, 2, 1000, 0⟩ Client.blank).2.1
      [1, 0, 0, 0, 0, 0, 0, 0, 191, 129] 10 [1, 0, 0, 0, 0, 0, 0, 0, 191, 129]
      (send str_got_packet Client.blank) (by decide) (by decide)⟩


/-! ## The validator on well-formed and on damaged frames -/

theorem check_packet_loop_append (body rest : List Nat) (crc : Nat) :
    check_packet_loop (body.length + 2) (body ++ rest) crc
      = (body.foldl (fun acc b => crc16_add b acc) crc, rest) := by
  induction body generalizing crc with
  | nil => rfl
  | cons b body ih =>
    have h : (b :: body).length + 2 = body.length + 3 := by simp
    rw [h, check_packet_loop]
    exact ih (crc16_add b crc)

theorem crc_fold_lt (l : List Nat) (a : Nat) (ha : a < 65536) :
    l.foldl (fun acc b => crc16_add b acc) a < 65536 := by
  induction l generalizing a with
  | nil => exact ha
  | cons b l ih => exact ih _ (crc16_add_lt b a)

theorem crc16_lt (body : List Nat) : crc16 body < 65536 :=
  crc_fold_lt body 0 (by norm_num)

theorem read_u16_le_bytes (c : Nat) (hc : c < 65536) (rest : List Nat) :
    read_u16 (le_bytes 2 c ++ rest) = c := by
  simp only [read_u16, le_bytes, List.cons_append, List.nil_append, List.getD_cons_zero,
    List.getD_cons_succ]
  omega

theorem check_packet_ok_append (body rest : List Nat) (s : Client)
    (h6 : 6 ≤ body.length) :
    check_packet (body ++ le_bytes 2 (crc16 body) ++ rest) (body.length + 2) s
      = (some (body ++ le_bytes 2 (crc16 body) ++ rest), send str_got_packet s) := by
  unfold check_packet
  have h8 : ¬ (body.length + 2 < 8) := by omega
  rw [List.append_assoc, check_packet_loop_append]
  simp only [h8, if_false]
  have hr := read_u16_le_bytes (crc16 body) (crc16_lt body) rest
  unfold crc16 at hr
  simp [hr, crc16]

/-- C2. For every byte sequence `body` of 6 to 253 bytes and every client
state, `check_packet` applied to `body` followed by the two bytes of
`crc16 body` in little-endian order, with the length of that frame as size,
returns a packet view at the start of the buffer, never nothing. -/
theorem check_packet_accepts (body : List Nat) (s : Client)
    (h6 : 6 ≤ body.length) (h253 : body.length ≤ 253) :
    check_packet (body ++ le_bytes 2 (crc16 body)) (body.length + 2) s
      = (some (body ++ le_bytes 2 (crc16 body)), send str_got_packet s) ∧
    body.length + 2 ≤ 255 := by
  have h := check_packet_ok_append body [] s h6
  simp only [List.append_nil] at h
  exact ⟨h, by omega⟩

/-- C2 on the body `1, 2, 3, 4, 5, 6`. -/
theorem check_packet_accepts_witness :
    check_packet ([1, 2, 3, 4, 5, 6] ++ le_bytes 2 (crc16 [1, 2, 3, 4, 5, 6])) (6 + 2)
        Client.blank
      = (some ([1, 2, 3, 4, 5, 6] ++ le_bytes 2 (crc16 [1, 2, 3, 4, 5, 6])),
          send str_got_packet Client.blank) ∧
    6 + 2 ≤ 255 :=
  check_packet_accepts [1, 2, 3, 4, 5, 6] Client.blank (by decide) (by decide)

theorem crc_fold_ne (l : List Nat) (a a' : Nat) (ha : a < 65536) (ha' : a' < 65536)
    (hl : ∀ b ∈ l, b < 65536) (hne : a ≠ a') :
    l.foldl (fun acc b => crc16_add b acc) a ≠ l.foldl (fun acc b => crc16_add b acc) a' := by
  induction l generalizing a a' with
  | nil => exact hne
  | cons b l ih =>
    simp only [List.foldl_cons]
    apply ih _ _ (crc16_add_lt b a) (crc16_add_lt b a')
      (fun x hx => hl x (List.mem_cons_of_mem _ hx))
    intro h
    exact hne (crc16_add_inj_acc (hl b (List.mem_cons_self _ _)) ha ha' h)

theorem xor_two_pow_ne (b j : Nat) : b ^^^ 2 ^ j ≠ b := by
  intro h
  have h0 : b ^^^ 2 ^ j = b ^^^ 0 := by rw [h, Nat.xor_zero]
  have h1 : 2 ^ j = 0 := Nat.xor_right_injective h0
  exact absurd h1 (by positivity)

theorem xor_two_pow_lt_256 (b j : Nat) (hb : b < 256) (hj : j < 8) : b ^^^ 2 ^ j < 256 := by
  have h256 : (256 : Nat) = 2 ^ 8 := by norm_num
  rw [h256] at hb ⊢
  exact Nat.xor_lt_two_pow hb (Nat.pow_lt_pow_right (by norm_num) hj)

theorem crc_fold_set_ne (body : List Nat) (k j acc : Nat) (hk : k < body.length)
    (hacc : acc < 65536) (hb : ∀ b ∈ body, b < 256) (hj : j < 8) :
    (body.set k (body.getD k 0 ^^^ 2 ^ j)).foldl (fun acc b => crc16_add b acc) acc
      ≠ body.foldl (fun acc b => crc16_add b acc) acc := by
  induction body generalizing k acc with
  | nil => simp at hk
  | cons b body ih =>
    have hb0 : b < 256 := hb b (List.mem_cons_self _ _)
    have hbody : ∀ x ∈ body, x < 256 := fun x hx => hb x (List.mem_cons_of_mem _ hx)
    cases k with
    | zero =>
      simp only [List.getD_cons_zero, List.set_cons_zero, List.foldl_cons]
      apply crc_fold_ne body _ _ (crc16_add_lt _ _) (crc16_add_lt _ _)
        (fun x hx => by have := hbody x hx; omega)
      intro h
      have h1 := crc16_add_inj_val
        (by have := xor_two_pow_lt_256 b j hb0 hj; omega) (by omega) hacc h
      exact xor_two_pow_ne b j h1
    | succ k =>
      simp only [List.getD_cons_succ, List.set_cons_succ, List.foldl_cons]
      exact ih k _ (by simpa using hk) (crc16_add_lt _ _) hbody

theorem check_packet_rejects_of_ne (body tail : List Nat) (s : Client)
    (h6 : 6 ≤ body.length) (hne : read_u16 tail ≠ crc16 body) :
    check_packet (body ++ tail) (body.length + 2) s = (none, send str_check_failed s) := by
  unfold check_packet
  have h8 : ¬ (body.length + 2 < 8) := by omega
  rw [check_packet_loop_append]
  simp only [h8, if_false]
  unfold crc16 at hne
  simp [hne]


/-- C3. For every frame `body ++ crc16 body` whose body is 6 to 253 bytes long
and every bit position `i` of the frame (in the body or in the two checksum
bytes), `check_packet` applied to the frame with bit `i` flipped returns
nothing. -/
theorem check_packet_detects_bit_flip (body : List Nat) (s : Client) (i : Nat)
    (hb : ∀ b ∈ body, b < 256) (h6 : 6 ≤ body.length) (h253 : body.length ≤ 253)
    (hi : i < 8 * (body.length + 2)) :
    check_packet (flip_bit (body ++ le_bytes 2 (crc16 body)) i) (body.length + 2) s
      = (none, send str_check_failed s) ∧ body.length + 2 ≤ 255 := by
  refine ⟨?_, by omega⟩
  have hj : i % 8 < 8 := Nat.mod_lt _ (by norm_num)
  have hk : i / 8 < body.length + 2 := by omega
  have hc := crc16_lt body
  unfold flip_bit
  by_cases h1 : i / 8 < body.length
  · rw [List.set_append_left _ _ h1, List.getD_append _ _ _ _ h1]
    have hlen : (body.set (i / 8) (body.getD (i / 8) 0 ^^^ 2 ^ (i % 8))).length = body.length :=
      List.length_set _ _ _
    rw [← hlen]
    apply check_packet_rejects_of_ne _ _ _ (by rw [hlen]; exact h6)
    have hr := read_u16_le_bytes _ hc []
    rw [List.append_nil] at hr
    rw [hr]
    exact (crc_fold_set_ne body (i / 8) (i % 8) 0 h1 (by norm_num) hb hj).symm
  · have h2 : body.length ≤ i / 8 := by omega
    rw [List.set_append_right _ _ h2, List.getD_append_right _ _ _ _ h2]
    apply check_packet_rejects_of_ne _ _ _ h6
    have hlo := xor_two_pow_ne (crc16 body % 256) (i % 8)
    have hhi := xor_two_pow_ne (crc16 body / 256 % 256) (i % 8)
    by_cases h3 : i / 8 - body.length = 0
    · rw [h3]
      simp only [le_bytes, List.getD_cons_zero, List.set_cons_zero, read_u16,
        List.getD_cons_succ]
      omega
    · have h4 : i / 8 - body.length = 1 := by omega
      rw [h4]
      simp only [le_bytes, List.getD_cons_zero, List.set_cons_zero, read_u16,
        List.getD_cons_succ, List.set_cons_succ]
      omega

/-- C3 on the body `1, 2, 3, 4, 5, 6` with bit 13 flipped (bit 5 of the second
byte). -/
theorem check_packet_detects_bit_flip_witness :
    (∀ b ∈ [1, 2, 3, 4, 5, 6], b < 256) ∧
    check_packet (flip_bit ([1, 2, 3, 4, 5, 6] ++ le_bytes 2 (crc16 [1, 2, 3, 4, 5, 6])) 13)
        (6 + 2) Client.blank
      = (none, send str_check_failed Client.blank) ∧ 6 + 2 ≤ 255 :=
  ⟨by decide,
    check_packet_detects_bit_flip [1, 2, 3, 4, 5, 6] Client.blank 13 (by decide) (by decide)
      (by decide) (by decide)⟩


/-! ## SLIP encoding and decoding -/

theorem send_eq_append (d : List Nat) (s : Client) :
    send d s = { s with tx := s.tx ++ (send d Client.blank).tx } := by
  induction d generalizing s with
  | nil => simp [send, Client.blank]
  | cons c d ih =>
    simp only [send]
    rw [ih (send_byte c s), ih (send_byte c Client.blank), send_byte_eq, send_byte_eq]
    simp [Client.blank]

theorem send_eq (d : List Nat) (s : Client) :
    send d s = { s with tx := s.tx ++ slip_encode d } :=
  send_eq_append d s

theorem slip_encode_nil : slip_encode [] = [] := rfl

theorem slip_encode_cons (c : Nat) (d : List Nat) :
    slip_encode (c :: d) =
      (if c = 0xC0 then [0xDB, 0xDC] else if c = 0xDB then [0xDB, 0xDD] else [c])
        ++ slip_encode d := by
  unfold slip_encode
  simp only [send]
  rw [send_eq_append d (send_byte c Client.blank), send_byte_eq]
  simp [Client.blank]

theorem slip_encode_append (d e : List Nat) :
    slip_encode (d ++ e) = slip_encode d ++ slip_encode e := by
  induction d with
  | nil => simp [slip_encode_nil]
  | cons c d ih =>
    rw [List.cons_append, slip_encode_cons, slip_encode_cons, ih, List.append_assoc]

theorem slip_encode_zeros (k : Nat) : slip_encode (List.replicate k 0) = List.replicate k 0 := by
  induction k with
  | zero => rfl
  | succ k ih =>
    rw [List.replicate_succ, slip_encode_cons, ih]
    simp

theorem store_list_append (d pre buf : List Nat) :
    store_list (pre ++ buf) pre.length d = pre ++ d ++ buf.drop d.length := by
  induction d generalizing pre buf with
  | nil => simp [store_list]
  | cons v d ih =>
    have hs : store (pre ++ buf) pre.length v = (pre ++ [v]) ++ buf.tail := by
      unfold store
      cases buf with
      | nil => simp
      | cons b buf => simp
    rw [store_list, hs]
    have hl : pre.length + 1 = (pre ++ [v]).length := by simp
    rw [hl, ih (pre ++ [v]) buf.tail]
    cases buf with
    | nil => simp
    | cons b buf => simp

theorem store_list_zero (d buf : List Nat) :
    store_list buf 0 d = d ++ buf.drop d.length := by
  have h := store_list_append d [] buf
  simpa using h

/-- The decoder loop run over the SLIP encoding of `d` stores the bytes of `d`
and goes on with what follows on the transport. -/
theorem try_receive_loop_slip_encode (cfg : Config) (sync : Client → Bool × Client)
    (d : List Nat) (rest : List (Option Nat)) (s : Client)
    (hesc : s.m_last_was_esc = false)
    (hfit : s.m_buffer_index + d.length ≤ cfg.buffer_size + 1) :
    try_receive_loop cfg sync ((slip_encode d).map some ++ rest) s
      = try_receive_loop cfg sync rest
          { s with m_buffer := store_list s.m_buffer s.m_buffer_index d,
                   m_buffer_index := s.m_buffer_index + d.length } := by
  induction d generalizing s with
  | nil =>
    simp only [slip_encode_nil, List.map_nil, List.nil_append, store_list, List.length_nil,
      Nat.add_zero]
  | cons c d ih =>
    have hidx : s.m_buffer_index ≤ cfg.buffer_size := by
      simp only [List.length_cons] at hfit
      omega
    have hfit1 : s.m_buffer_index + 1 + d.length ≤ cfg.buffer_size + 1 := by
      simp only [List.length_cons] at hfit
      omega
    have e1 : SLIP_ESC_END ≠ SLIP_ESC := by decide
    have e2 : SLIP_ESC_END ≠ SLIP_END := by decide
    have e3 : SLIP_ESC_ESC ≠ SLIP_ESC := by decide
    have e4 : SLIP_ESC_ESC ≠ SLIP_END := by decide
    have e5 : SLIP_ESC_END ≠ SLIP_ESC_ESC := by decide
    rw [slip_encode_cons]
    by_cases h1 : c = 0xC0
    · subst h1
      simp only [if_true, List.map_cons, List.cons_append, List.map_append]
      have hE : (0xDB : Nat) = SLIP_ESC := rfl
      have hF : (0xDC : Nat) = SLIP_ESC_END := rfl
      rw [hE, hF, try_receive_loop_esc, try_receive_loop_data _ _ _ _ _ e1 e2]
      simp only [hidx, if_true, e5, if_false]
      rw [← List.map_append, List.nil_append, ih _ rfl (by simpa using hfit1)]
      simp [store_list, SLIP_END, hesc, Nat.add_assoc, Nat.add_comm 1]
    · by_cases h2 : c = 0xDB
      · subst h2
        simp only [if_true, List.map_cons, List.cons_append]
        have hE : (0xDB : Nat) = SLIP_ESC := rfl
        have hF : (0xDD : Nat) = SLIP_ESC_ESC := rfl
        have hne : ¬ ((0xDB : Nat) = 0xC0) := by decide
        simp only [hne, if_false, if_true, List.map_cons, List.cons_append]
        rw [hE, hF, try_receive_loop_esc, try_receive_loop_data _ _ _ _ _ e3 e4]
        simp only [hidx, if_true]
        rw [List.nil_append, ih _ rfl (by simpa using hfit1)]
        simp [store_list, SLIP_ESC, hesc, Nat.add_assoc, Nat.add_comm 1]
      · simp only [h1, h2, if_false, List.map_cons, List.cons_append, List.map_nil,
          List.nil_append]
        have h1' : c ≠ SLIP_END := h1
        have h2' : c ≠ SLIP_ESC := h2
        rw [try_receive_loop_data _ _ _ _ _ h2' h1']
        simp only [hidx, if_true, hesc]
        rw [ih _ rfl (by simpa using hfit1)]
        simp [store_list, hesc, Nat.add_assoc, Nat.add_comm 1]


/-- C4. For every byte sequence `d` no longer than the buffer capacity (in
particular for every single byte), feeding the wire bytes that `send_byte`
writes for the bytes of `d`, in order, to `try_receive` in a state with buffer
index 0 and cleared escape flag stores exactly the bytes of `d` at the start of
the frame buffer and advances the index by their number, signals no frame
boundary (no packet is returned, nothing is validated or written), and ends
with the escape flag cleared. -/
theorem slip_round_trip (cfg : Config) (d : List Nat) (s : Client)
    (hlen : d.length ≤ cfg.buffer_size) (hidx : s.m_buffer_index = 0)
    (hesc : s.m_last_was_esc = false) (hrx : s.rx = (slip_encode d).map some) :
    try_receive cfg s
        = (none, { s with rx := [], m_buffer := d ++ s.m_buffer.drop d.length,
                          m_buffer_index := d.length }) ∧
      (try_receive cfg s).2.m_buffer.take d.length = d ∧
      (try_receive cfg s).2.m_last_was_esc = false := by
  have h : try_receive cfg s
      = (none, { s with rx := [], m_buffer := d ++ s.m_buffer.drop d.length,
                        m_buffer_index := d.length }) := by
    unfold try_receive try_receive_with
    have h0 := try_receive_loop_slip_encode cfg (sync cfg) d [] s hesc (by omega)
    rw [List.append_nil] at h0
    rw [hrx, h0, try_receive_loop, hidx, store_list_zero]
    simp
  rw [h]
  exact ⟨rfl, by simp, hesc⟩

/-- C4 on the bytes `0x41, 0xC0, 0xDB, 0x00`, whose encoding is
`0x41, 0xDB, 0xDC, 0xDB, 0xDD, 0x00`. -/
theorem slip_round_trip_witness :
    try_receive ⟨128, 1, 2, 1000, 0⟩
        { Client.blank with rx := [some 0x41, some 0xDB, some 0xDC, some 0xDB, some 0xDD, some 0] }
      = (none, { Client.blank with m_buffer := [0x41, 0xC0, 0xDB, 0x00], m_buffer_index := 4 }) :=
  (slip_round_trip ⟨128, 1, 2, 1000, 0⟩ [0x41, 0xC0, 0xDB, 0x00]
    { Client.blank with rx := [some 0x41, some 0xDB, some 0xDC, some 0xDB, some 0xDD, some 0] }
    (by decide) rfl rfl (by decide)).1


/-! ## The request builder -/

theorem send_bytes_eq (n : Nat) (data : List Nat) (s : Client) (h : n ≤ data.length) :
    send_bytes data n s
      = { s with tx := s.tx ++ slip_encode (data.take n),
                 m_runningCrc :=
                   (data.take n).foldl (fun acc b => crc16_add b acc) s.m_runningCrc } := by
  induction n generalizing data s with
  | zero => simp [send_bytes, slip_encode_nil]
  | succ n ih =>
    cases data with
    | nil => simp at h
    | cons b data =>
      have hn : n ≤ data.length := by simpa using h
      rw [send_bytes]
      simp only [List.headD_cons, List.tail_cons]
      rw [ih data _ hn, send_byte_eq]
      simp only [List.take_succ_cons, slip_encode_cons, List.foldl_cons, List.append_assoc]

theorem le_bytes_length (n v : Nat) : (le_bytes n v).length = n := by
  induction n generalizing v with
  | zero => rfl
  | succ n ih => simp [le_bytes, ih]

theorem send_binary_eq (n v : Nat) (s : Client) :
    send_binary n v s
      = { s with tx := s.tx ++ slip_encode (le_bytes n v),
                 m_runningCrc :=
                   (le_bytes n v).foldl (fun acc b => crc16_add b acc) s.m_runningCrc } := by
  unfold send_binary
  rw [send_bytes_eq n _ s (by rw [le_bytes_length])]
  have h : (le_bytes n v).take n = le_bytes n v := by
    have := List.take_length (le_bytes n v)
    rwa [le_bytes_length] at this
  rw [h]

theorem send_request_header_eq (c v n : Nat) (s : Client) :
    send_request_header c v n s
      = { s with tx := s.tx ++ [0xC0]
                   ++ slip_encode (le_bytes 2 c ++ le_bytes 2 n ++ le_bytes 4 v),
                 m_runningCrc := crc16 (le_bytes 2 c ++ le_bytes 2 n ++ le_bytes 4 v) } := by
  unfold send_request_header
  simp only [send_binary_eq, send_direct, SLIP_END, slip_encode_append, crc16,
    List.foldl_append, List.append_assoc]

theorem finalize_request_eq (s : Client) :
    finalize_request s
      = { s with tx := s.tx ++ slip_encode (le_bytes 2 s.m_runningCrc) ++ [0xC0],
                 m_runningCrc :=
                   (le_bytes 2 s.m_runningCrc).foldl (fun acc b => crc16_add b acc)
                     s.m_runningCrc } := by
  unfold finalize_request
  simp only [send_binary_eq, send_direct, SLIP_END]

/-- C6. For every command `c`, argument count `n`, value `v` and every client
state (so every prior running CRC), `send_request_header c v n` followed by
`finalize_request` appends to the transport exactly: one `0xC0`; the SLIP
encoding of the 8 bytes LE16 `c`, LE16 `n`, LE32 `v`; the SLIP encoding of
LE16 `k`, with `k` the CRC16 of those 8 bytes; and one `0xC0`. -/
theorem request_frame_layout (c v n : Nat) (s : Client) :
    (finalize_request (send_request_header c v n s)).tx
      = s.tx ++ [0xC0]
          ++ slip_encode (le_bytes 2 c ++ le_bytes 2 n ++ le_bytes 4 v)
          ++ slip_encode (le_bytes 2 (crc16 (le_bytes 2 c ++ le_bytes 2 n ++ le_bytes 4 v)))
          ++ [0xC0] ∧
    (le_bytes 2 c ++ le_bytes 2 n ++ le_bytes 4 v).length = 8 := by
  rw [finalize_request_eq, send_request_header_eq]
  simp [le_bytes_length]


/-! ## End to end: a request through builder, decoder and validator -/

theorem and_three (x : Nat) : x &&& 3 = x % 4 :=
  Nat.and_pow_two_sub_one_eq_mod x 2

theorem send_padding_eq (k : Nat) (s : Client) :
    send_padding k s
      = { s with tx := s.tx ++ List.replicate k 0,
                 m_runningCrc :=
                   (List.replicate k 0).foldl (fun acc b => crc16_add b acc) s.m_runningCrc } := by
  induction k generalizing s with
  | zero => simp [send_padding]
  | succ k ih =>
    rw [send_padding, ih]
    simp [send_direct, List.replicate_succ]

theorem add_parameter_bytes_eq (data : List Nat) (s : Client) (h : data.length ≤ 255) :
    add_parameter_bytes data data.length s
      = { s with tx := s.tx ++ slip_encode (parameter_layout data),
                 m_runningCrc :=
                   (parameter_layout data).foldl (fun acc b => crc16_add b acc)
                     s.m_runningCrc } := by
  unfold add_parameter_bytes parameter_layout
  have hmod : data.length % 256 = data.length := Nat.mod_eq_of_lt (by omega)
  simp only [hmod, and_three]
  rw [send_binary_eq, send_bytes_eq _ _ _ (le_refl _), send_padding_eq]
  simp only [List.take_length, slip_encode_append, slip_encode_zeros, List.foldl_append,
    List.append_assoc]

theorem add_parameters_eq (params : List (List Nat)) (s : Client)
    (h : ∀ d ∈ params, d.length ≤ 255) :
    add_parameters params s
      = { s with tx := s.tx ++ slip_encode (parameters_layout params),
                 m_runningCrc :=
                   (parameters_layout params).foldl (fun acc b => crc16_add b acc)
                     s.m_runningCrc } := by
  induction params generalizing s with
  | nil => simp [add_parameters, parameters_layout, slip_encode_nil]
  | cons d params ih =>
    rw [add_parameters, add_parameter_bytes_eq d s (h d (List.mem_cons_self _ _)),
      ih _ (fun x hx => h x (List.mem_cons_of_mem _ hx))]
    simp only [parameters_layout, slip_encode_append, List.foldl_append, List.append_assoc]

/-- The bytes that building a whole request puts on the wire. -/
theorem request_wire (c v n : Nat) (params : List (List Nat)) (t : Client)
    (h : ∀ d ∈ params, d.length ≤ 255) :
    (finalize_request (add_parameters params (send_request_header c v n t))).tx
      = t.tx ++ ([0xC0]
          ++ slip_encode (request_body c v n params
              ++ le_bytes 2 (crc16 (request_body c v n params)))
          ++ [0xC0]) := by
  rw [finalize_request_eq, add_parameters_eq _ _ h, send_request_header_eq]
  simp only [request_body, crc16, slip_encode_append, List.foldl_append, List.append_assoc]

theorem packet_cmd_le_bytes (c : Nat) (hc : c < 65536) (rest : List Nat) :
    packet_cmd (le_bytes 2 c ++ rest) = c := by
  simp only [packet_cmd, le_bytes, List.cons_append, List.nil_append, List.getD_cons_zero,
    List.getD_cons_succ]
  omega

theorem packet_value_le_bytes (a b v : Nat) (hv : v < 4294967296) (rest : List Nat) :
    packet_value (le_bytes 2 a ++ le_bytes 2 b ++ le_bytes 4 v ++ rest) = v := by
  simp only [packet_value, le_bytes, List.cons_append, List.nil_append, List.getD_cons_zero,
    List.getD_cons_succ]
  omega

theorem try_receive_delimiter_first (cfg : Config) (rest : List (Option Nat)) (r : Client)
    (hidx : r.m_buffer_index = 0) (hesc : r.m_last_was_esc = false)
    (hrx : r.rx = some 0xC0 :: rest) :
    try_receive cfg r = (none, { r with rx := rest }) := by
  unfold try_receive try_receive_with
  have hE : (0xC0 : Nat) = SLIP_END := rfl
  rw [hrx, hE, try_receive_loop_end, hidx]
  unfold decode_packet_with
  rw [check_packet_lt_8 _ _ _ (by norm_num)]
  cases r
  simp_all


theorem request_body_length (c v n : Nat) (params : List (List Nat)) :
    (request_body c v n params).length = 8 + (parameters_layout params).length := by
  simp only [request_body, le_bytes_length, List.length_append]

/-- The second call of `try_receive` on a framed, well-formed request. -/
theorem try_receive_frame (cfg : Config) (c v n : Nat) (params : List (List Nat))
    (r : Client) (hc : c < 65536) (hsync : c ≠ cfg.CMD_SYNC)
    (hlen : (request_body c v n params).length + 2 ≤ 255)
    (hfit : (request_body c v n params).length + 2 ≤ cfg.buffer_size)
    (hidx : r.m_buffer_index = 0) (hesc : r.m_last_was_esc = false)
    (hrx : r.rx = (slip_encode (request_body c v n params
              ++ le_bytes 2 (crc16 (request_body c v n params)))).map some ++ [some 0xC0]) :
    try_receive cfg r
      = (some (request_body c v n params ++ le_bytes 2 (crc16 (request_body c v n params))
            ++ r.m_buffer.drop ((request_body c v n params).length + 2)),
          { send str_got_packet r with
            rx := [],
            m_buffer := request_body c v n params
              ++ le_bytes 2 (crc16 (request_body c v n params))
              ++ r.m_buffer.drop ((request_body c v n params).length + 2),
            m_buffer_index := 0, m_last_was_esc := false }) := by
  have hbl := request_body_length c v n params
  have hfl : (request_body c v n params
      ++ le_bytes 2 (crc16 (request_body c v n params))).length
      = (request_body c v n params).length + 2 := by
    simp [le_bytes_length]
  unfold try_receive try_receive_with
  rw [hrx, try_receive_loop_slip_encode cfg (sync cfg) _ _ r hesc (by rw [hidx, hfl]; omega)]
  have hE : (0xC0 : Nat) = SLIP_END := rfl
  rw [hE, try_receive_loop_end]
  simp only [hidx, Nat.zero_add, hfl, store_list_zero]
  have hmod : ((request_body c v n params).length + 2) % 256
      = (request_body c v n params).length + 2 := Nat.mod_eq_of_lt (by omega)
  rw [hmod]
  unfold decode_packet_with
  rw [check_packet_ok_append _ _ _ (by omega)]
  have hcmd : packet_cmd (request_body c v n params
      ++ le_bytes 2 (crc16 (request_body c v n params))
      ++ r.m_buffer.drop ((request_body c v n params).length + 2)) = c := by
    unfold request_body
    simp only [List.append_assoc]
    exact packet_cmd_le_bytes c hc _
  simp only [hcmd, hsync, if_false]
  rw [send_eq, send_eq]


theorem drop_take_mid (h l tail : List Nat) (k : Nat) (hk : h.length = k) :
    ((h ++ (l ++ tail)).drop k).take l.length = l := by
  rw [List.drop_left' hk, List.take_left]

/-- C1. For every command `c` other than SYNC, every 32-bit value `v`, every
argument count `n` and every list of parameters (each at most 255 bytes long)
whose complete frame is at most 255 bytes and fits the receive buffer: when the
bytes that `send_request_header c v n`, `add_parameter_bytes` for each
parameter and `finalize_request` write to the transport are fed to
`try_receive`, starting with buffer index 0 and a cleared escape flag, the
first call consumes the opening delimiter and the second (so also `receive`
with a budget of 2) returns a packet, a view of the frame buffer, that
`check_packet` accepts, whose command is `c`, whose value is `v`, and whose
bytes from offset 8 are the parameters, each as its little-endian 16-bit
length, its data and its zero padding. -/
theorem request_round_trip (cfg : Config) (c v n : Nat) (params : List (List Nat))
    (t r : Client) (hc : c < 65536) (hsync : c ≠ cfg.CMD_SYNC) (hv : v < 4294967296)
    (hp : ∀ d ∈ params, d.length ≤ 255)
    (hlen : (request_body c v n params).length + 2 ≤ 255)
    (hfit : (request_body c v n params).length + 2 ≤ cfg.buffer_size)
    (hidx : r.m_buffer_index = 0) (hesc : r.m_last_was_esc = false)
    (hrx : r.rx = ((finalize_request (add_parameters params
              (send_request_header c v n t))).tx.drop t.tx.length).map some) :
    ∃ r1 r2 p,
      try_receive cfg r = (none, r1) ∧ try_receive cfg r1 = (some p, r2) ∧
      receive cfg 2 r = (some p, r2) ∧
      p = r2.m_buffer ∧
      (check_packet p ((request_body c v n params).length + 2) r1).1 = some p ∧
      packet_cmd p = c ∧ packet_value p = v ∧
      (p.drop 8).take (parameters_layout params).length = parameters_layout params := by
  rw [request_wire c v n params t hp, List.drop_left] at hrx
  simp only [List.cons_append, List.nil_append, List.map_cons, List.map_append,
    List.map_nil] at hrx
  have h1 := try_receive_delimiter_first cfg _ r hidx hesc hrx
  have h2 := try_receive_frame cfg c v n params
    { r with rx := (slip_encode (request_body c v n params
        ++ le_bytes 2 (crc16 (request_body c v n params)))).map some ++ [some 0xC0] }
    hc hsync hlen hfit hidx hesc rfl
  refine ⟨_, _, _, h1, h2, ?_, rfl, ?_, ?_, ?_, ?_⟩
  · unfold receive
    have e1 : try_receive_with cfg (sync cfg) r = try_receive cfg r := rfl
    rw [receive_with, e1, h1]
    simp only []
    have e2 : ∀ s, try_receive_with cfg (sync cfg) s = try_receive cfg s := fun _ => rfl
    rw [receive_with, e2, h2]
  · rw [check_packet_ok_append _ _ _ (by rw [request_body_length]; omega)]
  · unfold request_body
    simp only [List.append_assoc]
    exact packet_cmd_le_bytes c hc _
  · unfold request_body
    simp only [List.append_assoc]
    have := packet_value_le_bytes c n v hv
      (parameters_layout params ++ (le_bytes 2 (crc16 (le_bytes 2 c ++ (le_bytes 2 n
        ++ (le_bytes 4 v ++ parameters_layout params))))
        ++ List.drop ((le_bytes 2 c ++ (le_bytes 2 n
        ++ (le_bytes 4 v ++ parameters_layout params))).length + 2) r.m_buffer))
    simpa only [List.append_assoc] using this
  · unfold request_body
    have h8 : (le_bytes 2 c ++ le_bytes 2 n ++ le_bytes 4 v).length = 8 := by
      simp [le_bytes_length]
    have e := drop_take_mid (le_bytes 2 c ++ le_bytes 2 n ++ le_bytes 4 v)
      (parameters_layout params)
      (le_bytes 2 (crc16 (le_bytes 2 c ++ le_bytes 2 n ++ le_bytes 4 v
          ++ parameters_layout params))
        ++ List.drop ((le_bytes 2 c ++ le_bytes 2 n ++ le_bytes 4 v
          ++ parameters_layout params).length + 2) r.m_buffer) 8 h8
    simpa only [List.append_assoc] using e

set_option maxRecDepth 8000 in
/-- C1 on the scenario of the specification: command `0x0005`, value `0`, one
parameter "A"; the frame on the wire is
`C0 05 00 01 00 00 00 00 00 01 00 41 00 00 00 21 06 C0`. -/
theorem request_round_trip_witness :
    ∃ r1 r2 p,
      try_receive ⟨128, 1, 2, 1000, 0⟩
        { Client.blank with rx := [some 0xC0, some 5, some 0, some 1, some 0, some 0, some 0,
            some 0, some 0, some 1, some 0, some 0x41, some 0, some 0, some 0, some 0x21,
            some 6, some 0xC0] } = (none, r1) ∧
      try_receive ⟨128, 1, 2, 1000, 0⟩ r1 = (some p, r2) ∧
      receive ⟨128, 1, 2, 1000, 0⟩ 2
        { Client.blank with rx := [some 0xC0, some 5, some 0, some 1, some 0, some 0, some 0,
            some 0, some 0, some 1, some 0, some 0x41, some 0, some 0, some 0, some 0x21,
            some 6, some 0xC0] } = (some p, r2) ∧
      p = r2.m_buffer ∧
      (check_packet p ((request_body 5 0 1 [[0x41]]).length + 2) r1).1 = some p ∧
      packet_cmd p = 5 ∧ packet_value p = 0 ∧
      (p.drop 8).take (parameters_layout [[0x41]]).length = parameters_layout [[0x41]] :=
  request_round_trip ⟨128, 1, 2, 1000, 0⟩ 5 0 1 [[0x41]] Client.blank
    { Client.blank with rx := [some 0xC0, some 5, some 0, some 1, some 0, some 0, some 0,
        some 0, some 0, some 1, some 0, some 0x41, some 0, some 0, some 0, some 0x21,
        some 6, some 0xC0] }
    (by decide) (by decide) (by decide) (by decide) (by decide) (by decide) rfl rfl
    rfl


/-! ## The nested call of `sync()` and the loop of `sync()`

`sync` is defined with the nested call (the one `decode_packet` makes while the
body of `sync` runs) fixed to `sync_reentered`, and with an iteration bound on
its loop. The theorems of this section show that neither choice loses
anything: every function that behaves as `sync()` does when the guard flag is
set gives the same `sync`, in particular `sync` itself, so `sync` satisfies the
recursive equation of the source; and the iteration bound is never reached. -/

theorem send_syncing (str : List Nat) (s : Client) : (send str s).m_syncing = s.m_syncing :=
  (send_fields str s).2.2.2.2.1

theorem check_packet_syncing (buffer : List Nat) (size : Nat) (s : Client) :
    (check_packet buffer size s).2.m_syncing = s.m_syncing := by
  unfold check_packet
  by_cases h1 : size < 8
  · simp [h1]
  · by_cases h2 : read_u16 (check_packet_loop size buffer 0).2 ≠ (check_packet_loop size buffer 0).1
    · rw [if_neg h1, if_pos h2]
      exact send_syncing _ _
    · rw [if_neg h1, if_neg h2]
      exact send_syncing _ _

theorem check_packet_rx (buffer : List Nat) (size : Nat) (s : Client) :
    (check_packet buffer size s).2.rx = s.rx := by
  unfold check_packet
  by_cases h1 : size < 8
  · simp [h1]
  · by_cases h2 : read_u16 (check_packet_loop size buffer 0).2 ≠ (check_packet_loop size buffer 0).1
    · rw [if_neg h1, if_pos h2]
      exact (send_fields _ _).2.1
    · rw [if_neg h1, if_neg h2]
      exact (send_fields _ _).2.1

theorem decode_packet_with_guarded (cfg : Config) (f : Client → Bool × Client)
    (hf : ∀ s, s.m_syncing = true → f s = (false, s))
    (buffer : List Nat) (size : Nat) (s : Client) (hs : s.m_syncing = true) :
    decode_packet_with cfg f buffer size s
        = decode_packet_with cfg sync_reentered buffer size s ∧
      (decode_packet_with cfg sync_reentered buffer size s).2.m_syncing = true ∧
      (decode_packet_with cfg sync_reentered buffer size s).2.rx = s.rx := by
  have h1 := check_packet_syncing buffer size s
  have h2 := check_packet_rx buffer size s
  unfold decode_packet_with
  cases hcp : check_packet buffer size s with
  | mk p s1 =>
    rw [hcp] at h1 h2
    simp only at h1 h2
    have hs1 : s1.m_syncing = true := by rw [h1, hs]
    cases p with
    | none => exact ⟨rfl, hs1, h2⟩
    | some p =>
      by_cases hc : packet_cmd p = cfg.CMD_SYNC
      · simp only [hc, if_true, hf s1 hs1, sync_reentered]
        exact ⟨trivial, hs1, h2⟩
      · simp only [hc, if_false]
        exact ⟨trivial, hs1, h2⟩

theorem try_receive_loop_guarded (cfg : Config) (f : Client → Bool × Client)
    (hf : ∀ s, s.m_syncing = true → f s = (false, s))
    (rx : List (Option Nat)) (s : Client) (hs : s.m_syncing = true) :
    try_receive_loop cfg f rx s = try_receive_loop cfg sync_reentered rx s ∧
      (try_receive_loop cfg sync_reentered rx s).2.m_syncing = true ∧
      (try_receive_loop cfg sync_reentered rx s).2.rx.length ≤ rx.length ∧
      ((try_receive_loop cfg sync_reentered rx s).1 ≠ none →
        (try_receive_loop cfg sync_reentered rx s).2.rx.length < rx.length) := by
  induction rx generalizing s with
  | nil => simp [try_receive_loop, hs]
  | cons x rest ih =>
    cases x with
    | none => simp [try_receive_loop, hs]
    | some b =>
      by_cases h1 : b = SLIP_ESC
      · subst h1
        rw [try_receive_loop_esc, try_receive_loop_esc]
        have h := ih { s with m_last_was_esc := true } hs
        refine ⟨h.1, h.2.1, ?_, ?_⟩
        · have := h.2.2.1
          simp only [List.length_cons]
          omega
        · intro hne
          have := h.2.2.2 hne
          simp only [List.length_cons]
          omega
      · by_cases h2 : b = SLIP_END
        · subst h2
          rw [try_receive_loop_end, try_receive_loop_end]
          have h := decode_packet_with_guarded cfg f hf s.m_buffer (s.m_buffer_index % 256)
            { s with rx := rest } hs
          rw [h.1]
          refine ⟨rfl, h.2.1, ?_, ?_⟩
          · show (decode_packet_with cfg sync_reentered s.m_buffer (s.m_buffer_index % 256)
              { s with rx := rest }).2.rx.length ≤ (some SLIP_END :: rest).length
            rw [h.2.2]
            simp
          · intro _
            show (decode_packet_with cfg sync_reentered s.m_buffer (s.m_buffer_index % 256)
              { s with rx := rest }).2.rx.length < (some SLIP_END :: rest).length
            rw [h.2.2]
            simp
        · rw [try_receive_loop_data cfg f b rest s h1 h2,
            try_receive_loop_data cfg sync_reentered b rest s h1 h2]
          have h := ih (if s.m_buffer_index ≤ cfg.buffer_size then
            { s with
              m_last_was_esc := false,
              m_buffer := store s.m_buffer s.m_buffer_index
                (if s.m_last_was_esc then
                  if b = SLIP_ESC_ESC then SLIP_ESC
                  else if b = SLIP_ESC_END then SLIP_END
                  else b
                else b),
              m_buffer_index := s.m_buffer_index + 1 }
            else { s with m_last_was_esc := false }) (by
              by_cases hi : s.m_buffer_index ≤ cfg.buffer_size
              · simp only [hi, if_true]
                exact hs
              · simp only [hi, if_false]
                exact hs)
          refine ⟨h.1, h.2.1, ?_, ?_⟩
          · have := h.2.2.1
            simp only [List.length_cons]
            omega
          · intro hne
            have := h.2.2.2 hne
            simp only [List.length_cons]
            omega

theorem receive_with_guarded (cfg : Config) (f : Client → Bool × Client)
    (hf : ∀ s, s.m_syncing = true → f s = (false, s))
    (timeout : Nat) (s : Client) (hs : s.m_syncing = true) :
    receive_with cfg f timeout s = receive_with cfg sync_reentered timeout s ∧
      (receive_with cfg sync_reentered timeout s).2.m_syncing = true ∧
      (receive_with cfg sync_reentered timeout s).2.rx.length ≤ s.rx.length ∧
      ((receive_with cfg sync_reentered timeout s).1 ≠ none →
        (receive_with cfg sync_reentered timeout s).2.rx.length < s.rx.length) := by
  induction timeout generalizing s with
  | zero => simp [receive_with, hs]
  | succ t ih =>
    have h := try_receive_loop_guarded cfg f hf s.rx s hs
    rw [receive_with, receive_with]
    unfold try_receive_with
    rw [h.1]
    cases hr : try_receive_loop cfg sync_reentered s.rx s with
    | mk p s1 =>
      rw [hr] at h
      cases p with
      | some p =>
        simp only
        exact ⟨trivial, h.2.1, h.2.2.1, fun _ => h.2.2.2 (by simp)⟩
      | none =>
        simp only
        have h' := ih s1 h.2.1
        have hle : s1.rx.length ≤ s.rx.length := h.2.2.1
        refine ⟨h'.1, h'.2.1, le_trans h'.2.2.1 hle, fun hne => ?_⟩
        exact lt_of_lt_of_le (h'.2.2.2 hne) hle

theorem sync_wait_guarded (cfg : Config) (f : Client → Bool × Client)
    (hf : ∀ s, s.m_syncing = true → f s = (false, s))
    (fuel : Nat) (s : Client) (hs : s.m_syncing = true) :
    sync_wait cfg f fuel s = sync_wait cfg sync_reentered fuel s := by
  induction fuel generalizing s with
  | zero => rfl
  | succ k ih =>
    have h := receive_with_guarded cfg f hf cfg.receive_timeout s hs
    rw [sync_wait, sync_wait, h.1]
    cases hr : receive_with cfg sync_reentered cfg.receive_timeout s with
    | mk p s1 =>
      rw [hr] at h
      cases p with
      | none => rfl
      | some p =>
        simp only
        rw [ih s1 h.2.1]

/-- The iteration bound of the loop of `sync()` is never reached: any two
bounds above the length of the inbound script give the same result. -/
theorem sync_wait_fuel (cfg : Config) (k1 k2 : Nat) (s : Client) (hs : s.m_syncing = true)
    (h1 : s.rx.length < k1) (h2 : s.rx.length < k2) :
    sync_wait cfg sync_reentered k1 s = sync_wait cfg sync_reentered k2 s := by
  induction k1 generalizing k2 s with
  | zero => omega
  | succ k1 ih =>
    cases k2 with
    | zero => omega
    | succ k2 =>
      have h := receive_with_guarded cfg sync_reentered (fun _ _ => rfl)
        cfg.receive_timeout s hs
      rw [sync_wait, sync_wait]
      cases hr : receive_with cfg sync_reentered cfg.receive_timeout s with
      | mk p s1 =>
        rw [hr] at h
        cases p with
        | none => rfl
        | some p =>
          simp only
          have hlt : s1.rx.length < s.rx.length := h.2.2.2 (by simp)
          rw [ih k2 s1 h.2.1 (by omega) (by omega)]

theorem sync_with_guard (cfg : Config) (f : Client → Bool × Client) (s : Client)
    (h : s.m_syncing = true) : sync_with cfg f s = (false, s) := by
  unfold sync_with
  simp [h]

/-- Whatever function stands for the nested call of `sync()`, provided it
behaves as `sync()` does when the guard flag is set, `sync_with` is `sync`. -/
theorem sync_with_nested (cfg : Config) (f : Client → Bool × Client)
    (hf : ∀ s, s.m_syncing = true → f s = (false, s)) (s : Client) :
    sync_with cfg f s = sync cfg s := by
  unfold sync sync_with
  by_cases h : s.m_syncing = true
  · simp [h]
  · simp only [h, Bool.not_eq_true] at *
    simp only [h, Bool.not_false, if_true]
    apply sync_wait_guarded cfg f hf
    unfold execute_sync
    rw [finalize_request_eq, send_request_header_eq]
    simp [send_direct, clear_input]

/-- The function `sync` satisfies the recursive equation of the source: the
nested call may be taken to be `sync` itself. -/
theorem sync_fixpoint (cfg : Config) (s : Client) :
    sync_with cfg (sync cfg) s = sync cfg s :=
  sync_with_nested cfg (sync cfg) (fun s hs => sync_with_guard cfg sync_reentered s hs) s

/-! ## Parameters: padding and data -/

theorem foldl_crc_zeros (k acc : Nat) :
    (List.replicate k 0).foldl (fun acc b => crc16_add b acc) acc = (crc16_add 0)^[k] acc := by
  induction k generalizing acc with
  | zero => rfl
  | succ k ih =>
    rw [List.replicate_succ, List.foldl_cons, ih, Function.iterate_succ_apply]

/-- C11. For every length `L`, `add_parameter_bytes (data, L)` ends, after the
length field and the parameter data have been sent, by appending exactly
`(4 - (L mod 4)) mod 4` bytes of value `0x00` to the transport and folding
`crc16_add (0, .)` into the running CRC once for each of them; nothing else is
written after the data and nothing else changes. -/
theorem add_parameter_bytes_padding (data : List Nat) (L : Nat) (s : Client) :
    add_parameter_bytes data L s =
      { send_bytes data (L % 256) (send_binary 2 L s) with
        tx := (send_bytes data (L % 256) (send_binary 2 L s)).tx
          ++ List.replicate ((4 - L % 4) % 4) 0,
        m_runningCrc := (crc16_add 0)^[(4 - L % 4) % 4]
          (send_bytes data (L % 256) (send_binary 2 L s)).m_runningCrc } := by
  unfold add_parameter_bytes
  simp only [and_three]
  rw [send_padding_eq, foldl_crc_zeros]

/-- What `add_parameter_bytes (data, L)` writes, for every `L`: the length
field holds `L`, but only `L mod 256` data bytes follow it. -/
theorem add_parameter_bytes_emits (data : List Nat) (L : Nat) (s : Client)
    (h : L % 256 ≤ data.length) :
    (add_parameter_bytes data L s).tx =
      s.tx ++ slip_encode (le_bytes 2 L) ++ slip_encode (data.take (L % 256))
        ++ List.replicate ((4 - L % 4) % 4) 0 := by
  unfold add_parameter_bytes
  simp only [and_three]
  rw [send_padding_eq, send_bytes_eq _ _ _ h, send_binary_eq]

/-- C12, the code at the failing input `L = 256` with 256 data bytes `0x41`:
the length field `00 01` (256) is written, and then no data byte at all. -/
theorem add_parameter_bytes_drops_data :
    (add_parameter_bytes (List.replicate 256 0x41) 256 Client.blank).tx = [0x00, 0x01] ∧
      (List.replicate 256 0x41).length = 256 := by
  have e1 : (256 : Nat) % 256 = 0 := by norm_num
  refine ⟨?_, List.length_replicate _ _⟩
  rw [add_parameter_bytes_emits _ _ _ (by rw [e1]; exact Nat.zero_le _), e1,
    List.take_zero, slip_encode_nil]
  decide

/-! ## What one call of `try_receive` consumes -/

/-- The result of `try_receive` at a delimiter, from the state `a` reached when
the delimiter is read, `rest` being what follows it on the transport. -/
theorem try_receive_loop_to_delimiter (cfg : Config) (sync : Client → Bool × Client)
    (pre : List Nat) (rest : List (Option Nat)) (s : Client) (hpre : 0xC0 ∉ pre) :
    try_receive_loop cfg sync (pre.map some ++ some 0xC0 :: rest) s =
      ((decode_packet_with cfg sync (try_receive_loop cfg sync (pre.map some) s).2.m_buffer
          ((try_receive_loop cfg sync (pre.map some) s).2.m_buffer_index % 256)
          { (try_receive_loop cfg sync (pre.map some) s).2 with rx := rest }).1,
       { (decode_packet_with cfg sync (try_receive_loop cfg sync (pre.map some) s).2.m_buffer
          ((try_receive_loop cfg sync (pre.map some) s).2.m_buffer_index % 256)
          { (try_receive_loop cfg sync (pre.map some) s).2 with rx := rest }).2 with
         m_buffer_index := 0, m_last_was_esc := false }) := by
  have hE : (0xC0 : Nat) = SLIP_END := rfl
  induction pre generalizing s with
  | nil =>
    simp only [List.map_nil, List.nil_append]
    rw [hE, try_receive_loop_end, try_receive_loop]
  | cons b pre ih =>
    have hb : b ≠ SLIP_END := fun h => hpre (by rw [h]; exact List.mem_cons_self _ _)
    have hp : 0xC0 ∉ pre := fun h => hpre (List.mem_cons_of_mem _ h)
    simp only [List.map_cons, List.cons_append]
    by_cases h1 : b = SLIP_ESC
    · subst h1
      rw [try_receive_loop_esc, try_receive_loop_esc]
      exact ih _ hp
    · rw [try_receive_loop_data _ _ _ _ _ h1 hb, try_receive_loop_data _ _ _ _ _ h1 hb]
      exact ih _ hp

theorem try_receive_loop_no_delimiter (cfg : Config) (sync : Client → Bool × Client)
    (pre : List Nat) (s : Client) (hpre : 0xC0 ∉ pre) :
    (try_receive_loop cfg sync (pre.map some) s).1 = none ∧
      (try_receive_loop cfg sync (pre.map some) s).2.rx = [] ∧
      (try_receive_loop cfg sync (pre.map some) s).2.tx = s.tx := by
  induction pre generalizing s with
  | nil => simp [try_receive_loop]
  | cons b pre ih =>
    have hb : b ≠ SLIP_END := fun h => hpre (by rw [h]; exact List.mem_cons_self _ _)
    have hp : 0xC0 ∉ pre := fun h => hpre (List.mem_cons_of_mem _ h)
    simp only [List.map_cons]
    by_cases h1 : b = SLIP_ESC
    · subst h1
      rw [try_receive_loop_esc]
      exact ih _ hp
    · rw [try_receive_loop_data _ _ _ _ _ h1 hb]
      have h := ih (if s.m_buffer_index ≤ cfg.buffer_size then
            { s with
              m_last_was_esc := false,
              m_buffer := store s.m_buffer s.m_buffer_index
                (if s.m_last_was_esc then
                  if b = SLIP_ESC_ESC then SLIP_ESC
                  else if b = SLIP_ESC_END then SLIP_END
                  else b
                else b),
              m_buffer_index := s.m_buffer_index + 1 }
          else { s with m_last_was_esc := false }) hp
      refine ⟨h.1, h.2.1, ?_⟩
      rw [h.2.2]
      by_cases hi : s.m_buffer_index ≤ cfg.buffer_size
      · simp only [hi, if_true]
      · simp only [hi, if_false]

theorem try_receive_loop_rx_irrelevant (cfg : Config) (sync : Client → Bool × Client)
    (l rx0 : List (Option Nat)) (s : Client) :
    try_receive_loop cfg sync l { s with rx := rx0 } = try_receive_loop cfg sync l s := by
  induction l generalizing s with
  | nil => simp [try_receive_loop]
  | cons x rest ih =>
    cases x with
    | none => simp [try_receive_loop]
    | some b =>
      by_cases h1 : b = SLIP_ESC
      · subst h1
        rw [try_receive_loop_esc, try_receive_loop_esc]
        exact ih { s with m_last_was_esc := true }
      · by_cases h2 : b = SLIP_END
        · subst h2
          rw [try_receive_loop_end, try_receive_loop_end]
        · rw [try_receive_loop_data _ _ _ _ _ h1 h2, try_receive_loop_data _ _ _ _ _ h1 h2]
          by_cases hi : s.m_buffer_index ≤ cfg.buffer_size
          · simp only [hi, if_true]
            exact ih { s with
              m_last_was_esc := false,
              m_buffer := store s.m_buffer s.m_buffer_index
                (if s.m_last_was_esc then
                  if b = SLIP_ESC_ESC then SLIP_ESC
                  else if b = SLIP_ESC_END then SLIP_END
                  else b
                else b),
              m_buffer_index := s.m_buffer_index + 1 }
          · simp only [hi, if_false]
            exact ih { s with m_last_was_esc := false }

/-- The result of `try_receive` when the first delimiter follows the bytes
`pre`, in terms of `decode_packet`. -/
theorem try_receive_at_delimiter (cfg : Config) (s : Client) (pre : List Nat)
    (rest : List (Option Nat)) (hpre : 0xC0 ∉ pre)
    (hrx : s.rx = pre.map some ++ some 0xC0 :: rest) :
    try_receive cfg s =
      ((decode_packet cfg (try_receive cfg { s with rx := pre.map some }).2.m_buffer
          ((try_receive cfg { s with rx := pre.map some }).2.m_buffer_index % 256)
          { (try_receive cfg { s with rx := pre.map some }).2 with rx := rest }).1,
       { (decode_packet cfg (try_receive cfg { s with rx := pre.map some }).2.m_buffer
          ((try_receive cfg { s with rx := pre.map some }).2.m_buffer_index % 256)
          { (try_receive cfg { s with rx := pre.map some }).2 with rx := rest }).2 with
         m_buffer_index := 0, m_last_was_esc := false }) := by
  unfold try_receive try_receive_with decode_packet
  simp only [hrx, try_receive_loop_rx_irrelevant]
  exact try_receive_loop_to_delimiter cfg (sync cfg) pre rest s hpre

theorem check_packet_with_rx (buffer : List Nat) (size : Nat) (s : Client)
    (r : List (Option Nat)) :
    check_packet buffer size { s with rx := r }
      = ((check_packet buffer size s).1, { (check_packet buffer size s).2 with rx := r }) := by
  unfold check_packet
  by_cases h1 : size < 8
  · simp only [h1, if_true]
  · by_cases h2 : read_u16 (check_packet_loop size buffer 0).2 ≠ (check_packet_loop size buffer 0).1
    · rw [if_neg h1, if_neg h1, if_pos h2, if_pos h2, send_eq, send_eq]
    · rw [if_neg h1, if_neg h1, if_neg h2, if_neg h2, send_eq, send_eq]

theorem decode_packet_with_nosync (cfg : Config) (f : Client → Bool × Client)
    (buffer : List Nat) (size : Nat) (s : Client)
    (h : ∀ p, (check_packet buffer size s).1 = some p → packet_cmd p ≠ cfg.CMD_SYNC) :
    decode_packet_with cfg f buffer size s = check_packet buffer size s := by
  unfold decode_packet_with
  cases hcp : check_packet buffer size s with
  | mk p s1 =>
    rw [hcp] at h
    cases p with
    | none => rfl
    | some p =>
      have hne := h p rfl
      simp only [hne, if_false]

/-- C13 as amended. One call of `try_receive` reads the available bytes only
up to and including the first delimiter `0xC0`. With `pre` the bytes before
that delimiter, `rest` what follows it, and `a` the client once `pre` has
been assembled: unless the assembled frame is a valid SYNC packet, the call
returns what `check_packet` says of that frame (the frame if it passes
validation, else nothing) and leaves exactly `rest` on the transport for the
next call, with index and escape flag reset; if the frame is a valid SYNC
packet, the call returns nothing and `sync()` has run on `rest`. When the
available bytes hold no delimiter, all of them are read and nothing is
returned. -/
theorem try_receive_first_delimiter (cfg : Config) (s : Client) (pre : List Nat)
    (hpre : 0xC0 ∉ pre) :
    (∀ rest a, s.rx = pre.map some ++ some 0xC0 :: rest →
      a = (try_receive cfg { s with rx := pre.map some }).2 →
      ((∀ p, (check_packet a.m_buffer (a.m_buffer_index % 256) a).1 = some p →
          packet_cmd p ≠ cfg.CMD_SYNC) →
        try_receive cfg s =
          ((check_packet a.m_buffer (a.m_buffer_index % 256) a).1,
           { (check_packet a.m_buffer (a.m_buffer_index % 256) a).2 with
             rx := rest, m_buffer_index := 0, m_last_was_esc := false })) ∧
      (∀ p, (check_packet a.m_buffer (a.m_buffer_index % 256) a).1 = some p →
          packet_cmd p = cfg.CMD_SYNC →
        try_receive cfg s =
          (none,
           { (sync cfg { (check_packet a.m_buffer (a.m_buffer_index % 256) a).2 with
               rx := rest }).2 with
             m_buffer_index := 0, m_last_was_esc := false }))) ∧
    (s.rx = pre.map some →
      (try_receive cfg s).1 = none ∧ (try_receive cfg s).2.rx = []) := by
  constructor
  · intro rest a hrx ha
    have hE := try_receive_at_delimiter cfg s pre rest hpre hrx
    rw [← ha] at hE
    have hcp := check_packet_with_rx a.m_buffer (a.m_buffer_index % 256) a rest
    constructor
    · intro hns
      have hd := decode_packet_with_nosync cfg (sync cfg) a.m_buffer (a.m_buffer_index % 256)
        { a with rx := rest } (by rw [hcp]; exact hns)
      unfold decode_packet at hE
      rw [hE, hd, hcp]
    · intro p hp hc
      have hd := decode_packet_with_sync cfg (sync cfg) a.m_buffer (a.m_buffer_index % 256)
        { a with rx := rest } p
        { (check_packet a.m_buffer (a.m_buffer_index % 256) a).2 with rx := rest }
        (by rw [hcp, hp]) hc
      unfold decode_packet at hE
      rw [hE, hd]
  · intro hrx
    unfold try_receive try_receive_with
    rw [hrx]
    exact ⟨(try_receive_loop_no_delimiter cfg (sync cfg) pre s hpre).1,
      (try_receive_loop_no_delimiter cfg (sync cfg) pre s hpre).2.1⟩

set_option maxRecDepth 8000 in
/-- C13 fails as stated. With the delimiter `0xC0`, a complete valid frame
(command 5, value 0, one parameter "A") and its closing `0xC0` all available,
one call of `try_receive` returns nothing and leaves the frame and its
delimiter unread, although `check_packet` accepts that frame. -/
theorem try_receive_stops_at_first_delimiter :
    (try_receive ⟨32, 1, 2, 1000, 0⟩ (Client.init ⟨32, 1, 2, 1000, 0⟩
        [some 0xC0, some 5, some 0, some 1, some 0, some 0, some 0, some 0, some 0, some 1,
         some 0, some 0x41, some 0, some 0, some 0, some 0x21, some 6, some 0xC0])).1 = none ∧
    (try_receive ⟨32, 1, 2, 1000, 0⟩ (Client.init ⟨32, 1, 2, 1000, 0⟩
        [some 0xC0, some 5, some 0, some 1, some 0, some 0, some 0, some 0, some 0, some 1,
         some 0, some 0x41, some 0, some 0, some 0, some 0x21, some 6, some 0xC0])).2.rx
      = [some 5, some 0, some 1, some 0, some 0, some 0, some 0, some 0, some 1,
         some 0, some 0x41, some 0, some 0, some 0, some 0x21, some 6, some 0xC0] ∧
    (check_packet [5, 0, 1, 0, 0, 0, 0, 0, 1, 0, 0x41, 0, 0, 0, 0x21, 6] 16 Client.blank).1
      = some [5, 0, 1, 0, 0, 0, 0, 0, 1, 0, 0x41, 0, 0, 0, 0x21, 6] := by
  refine ⟨by rfl, by rfl, by decide⟩

set_option maxRecDepth 8000 in
/-- C13 as amended, on a client whose transport holds the bytes `1, 2`, a
delimiter, and the byte `3`: the call rejects the two byte frame, returns
nothing and leaves the `3` on the transport. -/
theorem try_receive_first_delimiter_witness :
    try_receive ⟨32, 1, 2, 1000, 0⟩
        { Client.blank with rx := [some 1, some 2, some 0xC0, some 3] } =
      (none, { Client.blank with rx := [some 3], m_buffer := [1, 2] }) :=
  ((try_receive_first_delimiter ⟨32, 1, 2, 1000, 0⟩
    { Client.blank with rx := [some 1, some 2, some 0xC0, some 3] } [1, 2] (by decide)).1
    [some 3] { Client.blank with m_buffer := [1, 2], m_buffer_index := 2 } rfl rfl).1
    (fun _ h => nomatch h)

/-! ## The frame buffer -/

set_option maxRecDepth 8000 in
/-- C14, the code at a failing input: with `buffer_size = 4` and five data
bytes available to a fresh client, `try_receive` stores the fifth byte at
index 4, one past the last element `m_buffer[3]`; the memory after the array
now holds the `5`, and the index stands at 5. -/
theorem try_receive_writes_past_buffer :
    (Client.init ⟨4, 1, 2, 1000, 0⟩ [some 1, some 2, some 3, some 4, some 5]).m_buffer.length = 4 ∧
    (try_receive ⟨4, 1, 2, 1000, 0⟩
        (Client.init ⟨4, 1, 2, 1000, 0⟩ [some 1, some 2, some 3, some 4, some 5])).2.m_buffer
      = [1, 2, 3, 4, 5] ∧
    (try_receive ⟨4, 1, 2, 1000, 0⟩
        (Client.init ⟨4, 1, 2, 1000, 0⟩ [some 1, some 2, some 3, some 4, some 5])).2.m_buffer_index
      = 5 := by
  refine ⟨by rfl, by rfl, by rfl⟩
/-- For every capacity: when `buffer_size + 1` data bytes arrive without a
delimiter, the last of them is stored at index `buffer_size`. -/
theorem try_receive_overrun (cfg : Config) (d : List Nat) (hd : d.length = cfg.buffer_size + 1) :
    (Client.init cfg ((slip_encode d).map some)).m_buffer.length = cfg.buffer_size ∧
    (try_receive cfg (Client.init cfg ((slip_encode d).map some))).2.m_buffer = d := by
  constructor
  · simp [Client.init]
  · unfold try_receive try_receive_with
    have h := try_receive_loop_slip_encode cfg (sync cfg) d []
      (Client.init cfg ((slip_encode d).map some)) rfl
      (by simp only [Client.init]; omega)
    rw [List.append_nil] at h
    have hrx : (Client.init cfg ((slip_encode d).map some)).rx = (slip_encode d).map some := rfl
    rw [hrx, h, try_receive_loop]
    simp only [Client.init, store_list_zero]
    rw [List.drop_eq_nil_of_le (by rw [List.length_replicate]; omega), List.append_nil]

/-! ## The iteration-count timeout -/

theorem receive_succ (cfg : Config) (t : Nat) (s : Client) :
    receive cfg (t + 1) s =
      if (try_receive cfg s).1 = none then receive cfg t (try_receive cfg s).2
      else try_receive cfg s := by
  unfold receive try_receive
  rw [receive_with]
  cases h : try_receive_with cfg (sync cfg) s with
  | mk p s1 =>
    cases p with
    | none => simp
    | some p => simp

theorem receive_loop_cases (cfg : Config) (t : Nat) (s : Client) :
    (∃ k, k < t ∧
        (∀ j, j < k → (try_receive cfg (after_try_receives cfg j s)).1 = none) ∧
        (try_receive cfg (after_try_receives cfg k s)).1 ≠ none ∧
        receive cfg t s = try_receive cfg (after_try_receives cfg k s)) ∨
      ((∀ j, j < t → (try_receive cfg (after_try_receives cfg j s)).1 = none) ∧
        receive cfg t s = (none, after_try_receives cfg t s)) := by
  induction t generalizing s with
  | zero =>
    right
    exact ⟨fun j hj => absurd hj (Nat.not_lt_zero j), rfl⟩
  | succ t ih =>
    rw [receive_succ]
    by_cases h : (try_receive cfg s).1 = none
    · simp only [h, if_true]
      rcases ih (try_receive cfg s).2 with ⟨k, hk, hnone, hsome, heq⟩ | ⟨hnone, heq⟩
      · left
        refine ⟨k + 1, by omega, ?_, hsome, heq⟩
        intro j hj
        cases j with
        | zero => exact h
        | succ j => exact hnone j (by omega)
      · right
        refine ⟨?_, heq⟩
        intro j hj
        cases j with
        | zero => exact h
        | succ j => exact hnone j (by omega)
    · simp only [h, if_false]
      left
      exact ⟨0, by omega, fun j hj => absurd hj (Nat.not_lt_zero j), h, rfl⟩

/-- C15. For every timeout `t` and every client state: `receive t` calls
`try_receive` at most `t` times; it returns the result of the first call that
yields a packet (call number `k + 1 ≤ t`, after `k` calls that yielded
nothing) and makes no call after it; when all `t` calls yield nothing it
returns nothing; and `receive 0` returns nothing and leaves client and
transport untouched. -/
theorem receive_iterates (cfg : Config) (t : Nat) (s : Client) :
    ((∃ k, k < t ∧
        (∀ j, j < k → (try_receive cfg (after_try_receives cfg j s)).1 = none) ∧
        (try_receive cfg (after_try_receives cfg k s)).1 ≠ none ∧
        receive cfg t s = try_receive cfg (after_try_receives cfg k s)) ∨
      ((∀ j, j < t → (try_receive cfg (after_try_receives cfg j s)).1 = none) ∧
        receive cfg t s = (none, after_try_receives cfg t s))) ∧
    receive cfg 0 s = (none, s) :=
  ⟨receive_loop_cases cfg t s, rfl⟩

/-! ## The escape-pending flag -/

theorem try_receive_loop_stop_flag (cfg : Config) (sync : Client → Bool × Client)
    (tail : List (Option Nat)) (s : Client) (h : tail = [] ∨ ∃ t, tail = none :: t) :
    (try_receive_loop cfg sync tail s).2.m_last_was_esc = s.m_last_was_esc := by
  rcases h with h | ⟨t, h⟩
  · subst h
    rfl
  · subst h
    rfl

theorem try_receive_loop_flag (cfg : Config) (sync : Client → Bool × Client)
    (pre : List Nat) (b : Nat) (tail : List (Option Nat)) (s : Client)
    (hpre : 0xC0 ∉ pre) (hb : b ≠ 0xC0) (htail : tail = [] ∨ ∃ t, tail = none :: t) :
    (try_receive_loop cfg sync ((pre ++ [b]).map some ++ tail) s).2.m_last_was_esc
      = decide (b = 0xDB) := by
  induction pre generalizing s with
  | nil =>
    simp only [List.nil_append, List.map_cons, List.map_nil, List.cons_append]
    by_cases h1 : b = SLIP_ESC
    · subst h1
      rw [try_receive_loop_esc, try_receive_loop_stop_flag _ _ _ _ htail]
      rfl
    · have h2 : b ≠ SLIP_END := hb
      rw [try_receive_loop_data _ _ _ _ _ h1 h2, try_receive_loop_stop_flag _ _ _ _ htail]
      have hd : decide (b = 0xDB) = false := decide_eq_false h1
      rw [hd]
      by_cases hi : s.m_buffer_index ≤ cfg.buffer_size
      · simp only [hi, if_true]
      · simp only [hi, if_false]
  | cons x pre ih =>
    have hx : x ≠ SLIP_END := fun h => hpre (by rw [h]; exact List.mem_cons_self _ _)
    have hp : 0xC0 ∉ pre := fun h => hpre (List.mem_cons_of_mem _ h)
    simp only [List.cons_append, List.map_cons]
    by_cases h1 : x = SLIP_ESC
    · subst h1
      rw [try_receive_loop_esc]
      exact ih _ hp
    · rw [try_receive_loop_data _ _ _ _ _ h1 hx]
      exact ih _ hp

/-- The escape-pending flag at the return of a call of `try_receive`, in terms
of the last wire byte `b` that the loop of this call reads (the bytes `pre`
before it hold no delimiter, and `b` is a delimiter or nothing is available
after it): the flag is true if and only if `b = 0xDB`. Bytes that a nested
`sync()` reads while the delimiter is handled are not covered. -/
theorem escape_flag_after_byte (cfg : Config) (s : Client) (pre : List Nat) (b : Nat)
    (tail : List (Option Nat)) (hpre : 0xC0 ∉ pre)
    (hlast : b = 0xC0 ∨ tail = [] ∨ ∃ t, tail = none :: t)
    (hrx : s.rx = (pre ++ [b]).map some ++ tail) :
    (try_receive cfg s).2.m_last_was_esc = decide (b = 0xDB) := by
  unfold try_receive try_receive_with
  rw [hrx]
  by_cases hb : b = 0xC0
  · subst hb
    simp only [List.map_append, List.map_cons, List.map_nil, List.append_assoc,
      List.cons_append, List.nil_append]
    rw [try_receive_loop_to_delimiter cfg (sync cfg) pre tail s hpre]
    rfl
  · rcases hlast with h | h
    · exact absurd h hb
    · exact try_receive_loop_flag cfg (sync cfg) pre b tail s hpre hb h

/-- The stream `0x41, 0xDB, 0xDB`: after the second escape byte the flag is
set. -/
theorem escape_flag_after_byte_witness :
    (try_receive ⟨32, 1, 2, 1000, 0⟩
        { Client.blank with rx := [some 0x41, some 0xDB, some 0xDB] }).2.m_last_was_esc
      = decide ((0xDB : Nat) = 0xDB) :=
  escape_flag_after_byte ⟨32, 1, 2, 1000, 0⟩
    { Client.blank with rx := [some 0x41, some 0xDB, some 0xDB] } [0x41, 0xDB] 0xDB []
    (by decide) (Or.inr (Or.inl rfl)) rfl

set_option maxRecDepth 8000 in
/-- C18, the code at two failing inputs. `try_receive` clears the escape flag
only after `decode_packet` has returned, so the calls of `try_receive` that
`sync()` makes while a delimiter is handled start with the flag as it was
before the delimiter. First input: a delimiter, a valid SYNC frame, `0xDB`,
the closing delimiter, two polls that find nothing, then `0xDD`. The `0xDD`
follows a delimiter and yet is stored as `0xDB` (at index 10): the delimiter
did not clear the flag. Second input: a delimiter, a valid SYNC frame, its
delimiter, two polls that find nothing, then `0xDB`. The call reads all of
it, the last wire byte processed is `0xDB`, and the flag is false on return. -/
theorem escape_flag_stale_during_sync :
    ((try_receive ⟨32, 1, 2, 4, 0⟩ (try_receive ⟨32, 1, 2, 4, 0⟩ (Client.init ⟨32, 1, 2, 4, 0⟩
      [some 0xC0, some 1, some 0, some 0, some 0, some 0, some 0, some 0, some 0, some 191,
       some 129, some 0xDB, some 0xC0, none, none, some 0xDD])).2).2.m_buffer.take 11
      = [1, 0, 0, 0, 0, 0, 0, 0, 191, 129, 0xDB]) ∧
    ((try_receive ⟨32, 1, 2, 4, 0⟩ (try_receive ⟨32, 1, 2, 4, 0⟩ (Client.init ⟨32, 1, 2, 4, 0⟩
      [some 0xC0, some 1, some 0, some 0, some 0, some 0, some 0, some 0, some 0, some 191,
       some 129, some 0xC0, none, none, some 0xDB])).2).2.rx = []) ∧
    ((try_receive ⟨32, 1, 2, 4, 0⟩ (try_receive ⟨32, 1, 2, 4, 0⟩ (Client.init ⟨32, 1, 2, 4, 0⟩
      [some 0xC0, some 1, some 0, some 0, some 0, some 0, some 0, some 0, some 0, some 191,
       some 129, some 0xC0, none, none, some 0xDB])).2).2.m_last_was_esc = false) := by
  refine ⟨by rfl, by rfl, by rfl⟩

/-! ## The outcome of `sync()` -/

theorem sync_eq_wait (cfg : Config) (s : Client) (h : s.m_syncing = false) :
    sync cfg s = sync_wait cfg sync_reentered ((sync_prelude cfg s).rx.length + 1)
      (sync_prelude cfg s) := by
  unfold sync sync_with sync_prelude
  simp [h]

theorem sync_prelude_syncing (cfg : Config) (s : Client) :
    (sync_prelude cfg s).m_syncing = true := by
  unfold sync_prelude execute_sync
  rw [finalize_request_eq, send_request_header_eq]
  simp [send_direct, clear_input]

theorem receive_guarded (cfg : Config) (s : Client) (hs : s.m_syncing = true) (t : Nat) :
    receive_with cfg sync_reentered t s = receive cfg t s ∧
      (receive cfg t s).2.m_syncing = true ∧
      ((receive cfg t s).1 ≠ none → (receive cfg t s).2.rx.length < s.rx.length) := by
  have h := receive_with_guarded cfg (sync cfg)
    (fun s hs => sync_with_guard cfg sync_reentered s hs) t s hs
  unfold receive
  rw [h.1]
  exact ⟨rfl, h.2.1, h.2.2.2⟩

theorem sync_wait_outcome (cfg : Config) (fuel : Nat) (s : Client)
    (hs : s.m_syncing = true) (hfuel : s.rx.length < fuel) :
    ((sync_wait cfg sync_reentered fuel s).1 = true ↔
      ∃ k p, (receive cfg cfg.receive_timeout (after_receives cfg k s)).1 = some p ∧
        packet_cmd p = cfg.CMD_RESP_V ∧
        ∀ j, j < k → ∃ q,
          (receive cfg cfg.receive_timeout (after_receives cfg j s)).1 = some q ∧
          packet_cmd q ≠ cfg.CMD_RESP_V) ∧
    (sync_wait cfg sync_reentered fuel s).2.m_syncing = false := by
  induction fuel generalizing s with
  | zero => omega
  | succ fuel ih =>
    have hg := receive_guarded cfg s hs cfg.receive_timeout
    rw [sync_wait, hg.1]
    cases hr : receive cfg cfg.receive_timeout s with
    | mk r s1 =>
      rw [hr] at hg
      cases r with
      | none =>
        simp only
        refine ⟨⟨fun h => absurd h (by simp), ?_⟩, trivial⟩
        rintro ⟨k, p, h1, _, h3⟩
        cases k with
        | zero =>
          simp only [after_receives] at h1
          rw [hr] at h1
          simp at h1
        | succ k =>
          obtain ⟨q, hq, _⟩ := h3 0 (by omega)
          simp only [after_receives] at hq
          rw [hr] at hq
          simp at hq
      | some p =>
        simp only
        by_cases hc : packet_cmd p = cfg.CMD_RESP_V
        · simp only [hc, if_true]
          refine ⟨⟨fun _ => ⟨0, p, ?_, hc, fun j hj => absurd hj (Nat.not_lt_zero j)⟩, ?_⟩, trivial⟩
          · simp only [after_receives]
            rw [hr]
          · intro _
            trivial
        · simp only [hc, if_false]
          have hlt : s1.rx.length < s.rx.length := hg.2.2 (by simp)
          have h1 := ih s1 hg.2.1 (by omega)
          have hstep : ∀ k, after_receives cfg (k + 1) s = after_receives cfg k s1 := by
            intro k
            simp only [after_receives]
            rw [hr]
          refine ⟨⟨fun h => ?_, fun h => ?_⟩, h1.2⟩
          · obtain ⟨k, p', hp', hc', hall⟩ := h1.1.mp h
            refine ⟨k + 1, p', by rw [hstep]; exact hp', hc', ?_⟩
            intro j hj
            cases j with
            | zero =>
              refine ⟨p, ?_, hc⟩
              simp only [after_receives]
              rw [hr]
            | succ j =>
              rw [hstep]
              exact hall j (by omega)
          · obtain ⟨k, p', hp', hc', hall⟩ := h
            cases k with
            | zero =>
              simp only [after_receives] at hp'
              rw [hr] at hp'
              simp only [Option.some.injEq] at hp'
              subst hp'
              exact absurd hc' hc
            | succ k =>
              apply h1.1.mpr
              refine ⟨k, p', by rw [← hstep]; exact hp', hc', ?_⟩
              intro j hj
              have := hall (j + 1) (by omega)
              rw [hstep] at this
              exact this

/-- C16. For every client state in which the guard flag is false: `sync()`
returns true if and only if, among the packets that successive calls of
`receive()` return after the SYNC request was sent, one with the command
`CMD_RESP_V` occurs, all packets before it having another command (they are
discarded) and no call before it having returned nothing; and in either case
the guard flag is false again when `sync()` returns. -/
theorem sync_outcome (cfg : Config) (s : Client) (h : s.m_syncing = false) :
    ((sync cfg s).1 = true ↔
      ∃ k p, (receive cfg cfg.receive_timeout
          (after_receives cfg k (sync_prelude cfg s))).1 = some p ∧
        packet_cmd p = cfg.CMD_RESP_V ∧
        ∀ j, j < k → ∃ q,
          (receive cfg cfg.receive_timeout
            (after_receives cfg j (sync_prelude cfg s))).1 = some q ∧
          packet_cmd q ≠ cfg.CMD_RESP_V) ∧
    (sync cfg s).2.m_syncing = false := by
  rw [sync_eq_wait cfg s h]
  exact sync_wait_outcome cfg _ _ (sync_prelude_syncing cfg s) (by omega)
set_option maxRecDepth 8000 in
/-- C16 on a fresh client to which, after two polls that find nothing, the
peer sends the frame of a version response (command 2): `sync()` returns
true, the loop has met a `CMD_RESP_V` packet, and the guard flag is false on
return. -/
theorem sync_outcome_witness :
    (sync ⟨32, 1, 2, 4, 0⟩ (Client.init ⟨32, 1, 2, 4, 0⟩
      [none, none, some 0xC0, some 2, some 0, some 0, some 0, some 0, some 0, some 0, some 0,
       some 111, some 11, some 0xC0])).1 = true ∧
    (∃ k p, (receive ⟨32, 1, 2, 4, 0⟩ 4
        (after_receives ⟨32, 1, 2, 4, 0⟩ k (sync_prelude ⟨32, 1, 2, 4, 0⟩
          (Client.init ⟨32, 1, 2, 4, 0⟩
            [none, none, some 0xC0, some 2, some 0, some 0, some 0, some 0, some 0, some 0,
             some 0, some 111, some 11, some 0xC0])))).1 = some p ∧
      packet_cmd p = 2 ∧
      ∀ j, j < k → ∃ q, (receive ⟨32, 1, 2, 4, 0⟩ 4
        (after_receives ⟨32, 1, 2, 4, 0⟩ j (sync_prelude ⟨32, 1, 2, 4, 0⟩
          (Client.init ⟨32, 1, 2, 4, 0⟩
            [none, none, some 0xC0, some 2, some 0, some 0, some 0, some 0, some 0, some 0,
             some 0, some 111, some 11, some 0xC0])))).1 = some q ∧
        packet_cmd q ≠ 2) ∧
    (sync ⟨32, 1, 2, 4, 0⟩ (Client.init ⟨32, 1, 2, 4, 0⟩
      [none, none, some 0xC0, some 2, some 0, some 0, some 0, some 0, some 0, some 0, some 0,
       some 111, some 11, some 0xC0])).2.m_syncing = false :=
  ⟨by rfl,
   (sync_outcome ⟨32, 1, 2, 4, 0⟩ (Client.init ⟨32, 1, 2, 4, 0⟩
      [none, none, some 0xC0, some 2, some 0, some 0, some 0, some 0, some 0, some 0, some 0,
       some 111, some 11, some 0xC0]) rfl).1.mp (by rfl),
   (sync_outcome ⟨32, 1, 2, 4, 0⟩ (Client.init ⟨32, 1, 2, 4, 0⟩
      [none, none, some 0xC0, some 2, some 0, some 0, some 0, some 0, some 0, some 0, some 0,
       some 111, some 11, some 0xC0]) rfl).2⟩
/-! ## The frame buffer during a synchronisation -/

set_option maxRecDepth 8000 in
/-- C17, the code at a failing input. A fresh client receives a delimiter, a
valid SYNC frame and its delimiter; then, after two polls that find nothing,
the ten bytes of a valid version response and a delimiter. `decode_packet`
calls `sync()` before `try_receive` has reset `m_buffer_index`, so the
response is stored from index 10 on, after the SYNC frame: at the closing
delimiter the validator is handed the twenty bytes of both frames, finds a
SYNC command in them, and the response is lost. The same response bytes make
`sync()` succeed when the index is 0 at its start. -/
theorem sync_frame_not_reset :
    (try_receive ⟨32, 1, 2, 4, 0⟩ (try_receive ⟨32, 1, 2, 4, 0⟩ (Client.init ⟨32, 1, 2, 4, 0⟩
      [some 0xC0, some 1, some 0, some 0, some 0, some 0, some 0, some 0, some 0, some 191,
       some 129, some 0xC0, none, none, some 2, some 0, some 0, some 0, some 0, some 0,
       some 0, some 0, some 111, some 11, some 0xC0])).2).1 = none ∧
    ((try_receive ⟨32, 1, 2, 4, 0⟩ (try_receive ⟨32, 1, 2, 4, 0⟩ (Client.init ⟨32, 1, 2, 4, 0⟩
      [some 0xC0, some 1, some 0, some 0, some 0, some 0, some 0, some 0, some 0, some 191,
       some 129, some 0xC0, none, none, some 2, some 0, some 0, some 0, some 0, some 0,
       some 0, some 0, some 111, some 11, some 0xC0])).2).2.m_buffer.take 20
      = [1, 0, 0, 0, 0, 0, 0, 0, 191, 129, 2, 0, 0, 0, 0, 0, 0, 0, 111, 11]) ∧
    ((try_receive ⟨32, 1, 2, 4, 0⟩ (try_receive ⟨32, 1, 2, 4, 0⟩ (Client.init ⟨32, 1, 2, 4, 0⟩
      [some 0xC0, some 1, some 0, some 0, some 0, some 0, some 0, some 0, some 0, some 191,
       some 129, some 0xC0, none, none, some 2, some 0, some 0, some 0, some 0, some 0,
       some 0, some 0, some 111, some 11, some 0xC0])).2).2.tx
      = str_got_packet ++ str_sync ++ [0xC0, 0xC0, 1, 0, 0, 0, 0, 0, 0, 0, 191, 129, 0xC0]
          ++ str_got_packet) ∧
    (sync ⟨32, 1, 2, 4, 0⟩ (Client.init ⟨32, 1, 2, 4, 0⟩
      [none, none, some 2, some 0, some 0, some 0, some 0, some 0, some 0, some 0, some 111,
       some 11, some 0xC0])).1 = true := by
  refine ⟨by rfl, by rfl, by rfl, by rfl⟩

/-! ## The CRC step as a bit-serial CRC -/

theorem testBit_8408 (i : Nat) :
    Nat.testBit 0x8408 i = (decide (i = 3) || decide (i = 10) || decide (i = 15)) := by
  have h : (0x8408 : Nat) = 2 ^ 3 ||| 2 ^ 10 ||| 2 ^ 15 := by decide
  rw [h, Nat.testBit_or, Nat.testBit_or, Nat.testBit_two_pow, Nat.testBit_two_pow,
    Nat.testBit_two_pow]
  simp only [eq_comm]

theorem testBit_kermit_round (x i : Nat) :
    (kermit_round x).testBit i =
      (x.testBit (i + 1) ^^ (x.testBit 0 && (decide (i = 3) || decide (i = 10) || decide (i = 15)))) := by
  unfold kermit_round
  rw [Nat.testBit_xor, Nat.testBit_shiftRight, Nat.add_comm 1 i, Nat.testBit_zero]
  by_cases h : x % 2 = 1
  · simp only [h, if_true, testBit_8408, decide_True, Bool.true_and]
  · simp only [h, if_false, Nat.zero_testBit, decide_False, Bool.false_and]

theorem crc_lines_eq_kermit (x : Nat) (hx : x < 65536) :
    crc_line5 (crc_line4 (crc_line3 16 (crc_line2 16 x)))
      = kermit_round (kermit_round (kermit_round (kermit_round
          (kermit_round (kermit_round (kermit_round (kermit_round x))))))) := by
  have hb : ∀ j, 16 ≤ j → x.testBit j = false := fun j hj => testBit_of_lt_65536 hx hj
  apply Nat.eq_of_testBit_eq
  intro i
  simp only [crc_line5, crc_line4, crc_line3, crc_line2, two_pow_16, Nat.testBit_mod_two_pow,
    Nat.testBit_xor, Nat.testBit_or, Nat.testBit_shiftRight, Nat.testBit_shiftLeft,
    Nat.testBit_and, testBit_ff00, testBit_kermit_round]
  by_cases h1 : i < 16
  · interval_cases i
    all_goals simp [hb]
    all_goals
      cases x.testBit 7 <;> cases x.testBit 3 <;> cases decide (x % 2 = 1) <;> rfl
  · have h3 : ∀ k, ¬ (i + k = 3) := fun k => by omega
    have h10 : ∀ k, ¬ (i + k = 10) := fun k => by omega
    have h15 : ∀ k, ¬ (i + k = 15) := fun k => by omega
    have h3' : ¬ (i = 3) := by omega
    have h10' : ¬ (i = 10) := by omega
    have h15' : ¬ (i = 15) := by omega
    have hbi : ∀ k, x.testBit (i + k) = false := fun k => hb _ (by omega)
    simp [h1, h3, h10, h15, h3', h10', h15', hbi, Nat.add_assoc]

/-- C19. For every byte `v` and every 16-bit accumulator `a`, `crc16_add`
gives the result of the bit-serial CRC-16/KERMIT update: `v` XORed into the
low byte of `a`, then eight rounds of "shift right by one, and XOR with
`0x8408` if the bit shifted out was 1". -/
theorem crc16_add_is_kermit (v a : Nat) (hv : v < 256) (ha : a < 65536) :
    crc16_add v a = crc16_kermit v a := by
  unfold crc16_add crc16_kermit
  rw [crc16_add_int_lines, crc_line1_spec v a (by omega) ha]
  exact crc_lines_eq_kermit (a ^^^ v) (xor_lt_65536 ha (by omega))

/-- C19 at `v = 0x31`, `a = 0xFFFF`. -/
theorem crc16_add_is_kermit_witness : crc16_add 0x31 0xFFFF = crc16_kermit 0x31 0xFFFF :=
  crc16_add_is_kermit 0x31 0xFFFF (by decide) (by decide)

/-! ## The zero residue -/

theorem mul_256_xor (h l : Nat) (hl : l < 256) : h * 256 ^^^ l = h * 256 + l := by
  have h256 : (256 : Nat) = 2 ^ 8 := by norm_num
  have hlb : ∀ j, 8 ≤ j → l.testBit j = false := fun j hj =>
    Nat.testBit_lt_two_pow (lt_of_lt_of_le (h256 ▸ hl) (Nat.pow_le_pow_right (by norm_num) hj))
  apply Nat.eq_of_testBit_eq
  intro i
  rw [h256] at hl ⊢
  rw [Nat.mul_comm h (2 ^ 8), Nat.testBit_mul_pow_two_add h hl, Nat.testBit_xor,
    Nat.testBit_mul_pow_two]
  by_cases hi : i < 8
  · have : ¬ (i ≥ 8) := by omega
    simp [hi, this]
  · have : i ≥ 8 := by omega
    simp [hi, this, hlb i this]

theorem crc_lines_high_byte (h : Nat) (hh : h < 256) :
    crc_line5 (crc_line4 (crc_line3 16 (crc_line2 16 (h <<< 8)))) = h := by
  have h256 : (256 : Nat) = 2 ^ 8 := by norm_num
  have hb : ∀ j, 8 ≤ j → h.testBit j = false := fun j hj =>
    Nat.testBit_lt_two_pow (lt_of_lt_of_le (h256 ▸ hh) (Nat.pow_le_pow_right (by norm_num) hj))
  apply Nat.eq_of_testBit_eq
  intro i
  simp only [crc_line5, crc_line4, crc_line3, crc_line2, two_pow_16, Nat.testBit_mod_two_pow,
    Nat.testBit_xor, Nat.testBit_or, Nat.testBit_shiftRight, Nat.testBit_shiftLeft,
    Nat.testBit_and, testBit_ff00]
  by_cases h1 : i < 16
  · interval_cases i <;> simp [hb]
  · simp [h1, hb i (by omega)]
theorem crc16_add_eq_lines (v a : Nat) (hv : v < 65536) (ha : a < 65536) :
    crc16_add v a = crc_line5 (crc_line4 (crc_line3 16 (crc_line2 16 (a ^^^ v)))) := by
  unfold crc16_add
  rw [crc16_add_int_lines, crc_line1_spec v a hv ha]

theorem crc_lines_zero : crc_line5 (crc_line4 (crc_line3 16 (crc_line2 16 0))) = 0 := by
  decide

theorem crc16_add_self (v : Nat) (hv : v < 65536) : crc16_add v v = 0 := by
  rw [crc16_add_eq_lines v v hv hv, Nat.xor_self]
  exact crc_lines_zero

theorem crc16_add_low_byte (a : Nat) (ha : a < 65536) :
    crc16_add (a % 256) a = a / 256 := by
  have hlo : a % 256 < 256 := Nat.mod_lt _ (by norm_num)
  have hx : a ^^^ a % 256 = (a / 256) <<< 8 := by
    have h1 := mul_256_xor (a / 256) (a % 256) hlo
    have h2 : a / 256 * 256 + a % 256 = a := by omega
    rw [h2] at h1
    have e : a ^^^ a % 256 = (a / 256 * 256 ^^^ a % 256) ^^^ a % 256 := by rw [h1]
    rw [e, Nat.xor_assoc, Nat.xor_self, Nat.xor_zero, Nat.shiftLeft_eq]
  rw [crc16_add_eq_lines _ _ (by omega) ha, hx]
  exact crc_lines_high_byte _ (by omega)

theorem crc16_add_residue (a : Nat) (ha : a < 65536) :
    crc16_add (a / 256) (crc16_add (a % 256) a) = 0 := by
  rw [crc16_add_low_byte a ha]
  exact crc16_add_self _ (by omega)

theorem crc16_add_residue_inv (lo hi c : Nat) (hlo : lo < 256) (hhi : hi < 256)
    (hc : c < 65536) (h : crc16_add hi (crc16_add lo c) = 0) : lo + 256 * hi = c := by
  have h0 : crc16_add hi (crc16_add lo c) = crc16_add hi hi := by
    rw [h, crc16_add_self hi (by omega)]
  have h1 : crc16_add lo c = hi :=
    crc16_add_inj_acc (by omega) (crc16_add_lt _ _) (by omega) h0
  rw [crc16_add_eq_lines lo c (by omega) hc, ← crc_lines_high_byte hi hhi] at h1
  have hshift : hi <<< 8 < 65536 := by
    rw [Nat.shiftLeft_eq]
    norm_num
    omega
  have h2 : c ^^^ lo = hi <<< 8 :=
    crc_lines_inj 16 (le_refl _) _ _ (xor_lt_65536 hc (by omega)) hshift h1
  have h3 : c = hi * 256 ^^^ lo := by
    have : (c ^^^ lo) ^^^ lo = hi <<< 8 ^^^ lo := by rw [h2]
    rw [Nat.xor_assoc, Nat.xor_self, Nat.xor_zero, Nat.shiftLeft_eq] at this
    simpa using this
  rw [h3, mul_256_xor hi lo hlo]
  omega

theorem finalize_request_crc (s : Client) (h : s.m_runningCrc < 65536) :
    (finalize_request s).m_runningCrc = 0 := by
  rw [finalize_request_eq]
  simp only [le_bytes, List.foldl_cons, List.foldl_nil]
  have e : s.m_runningCrc / 256 % 256 = s.m_runningCrc / 256 := Nat.mod_eq_of_lt (by omega)
  rw [e]
  exact crc16_add_residue _ h

theorem check_packet_iff_residue (buffer : List Nat) (n : Nat) (s : Client)
    (h8 : 8 ≤ n) (hlen : n ≤ buffer.length) (hb : ∀ b ∈ buffer, b < 256) :
    (check_packet buffer n s).1 = some buffer ↔
      (buffer.take n).foldl (fun acc b => crc16_add b acc) 0 = 0 := by
  obtain ⟨body, tail, hbuf, hbody⟩ : ∃ body tail, buffer = body ++ tail ∧ body.length = n - 2 :=
    ⟨buffer.take (n - 2), buffer.drop (n - 2), (List.take_append_drop _ _).symm,
      by rw [List.length_take]; omega⟩
  have htl : 2 ≤ tail.length := by
    have := congrArg List.length hbuf
    rw [List.length_append] at this
    omega
  obtain ⟨lo, hi, rest, htail⟩ : ∃ lo hi rest, tail = lo :: hi :: rest := by
    match tail, htl with
    | lo :: hi :: rest, _ => exact ⟨lo, hi, rest, rfl⟩
  subst htail
  have hn : n = body.length + 2 := by omega
  have hlo : lo < 256 := hb lo (by rw [hbuf]; simp)
  have hhi : hi < 256 := hb hi (by rw [hbuf]; simp)
  have htake : buffer.take n = body ++ [lo, hi] := by
    rw [hbuf, hn]
    have : body ++ lo :: hi :: rest = (body ++ [lo, hi]) ++ rest := by simp
    rw [this]
    exact List.take_left' (by simp)
  have hfold : (buffer.take n).foldl (fun acc b => crc16_add b acc) 0
      = crc16_add hi (crc16_add lo (crc16 body)) := by
    rw [htake, List.foldl_append]
    rfl
  rw [hfold]
  have hcp : check_packet buffer n s
      = if read_u16 (lo :: hi :: rest) ≠ crc16 body then (none, send str_check_failed s)
        else (some buffer, send str_got_packet s) := by
    unfold check_packet
    have h8' : ¬ (n < 8) := by omega
    rw [if_neg h8', hbuf, hn, check_packet_loop_append]
    rfl
  rw [hcp]
  have hread : read_u16 (lo :: hi :: rest) = lo + 256 * hi := rfl
  rw [hread]
  constructor
  · intro h
    by_cases hne : lo + 256 * hi ≠ crc16 body
    · rw [if_pos hne] at h
      simp at h
    · have heq : lo + 256 * hi = crc16 body := not_not.mp hne
      have e1 : crc16 body % 256 = lo := by omega
      have e2 : crc16 body / 256 = hi := by omega
      have := crc16_add_residue (crc16 body) (crc16_lt body)
      rw [e1, e2] at this
      exact this
  · intro h
    have heq := crc16_add_residue_inv lo hi (crc16 body) hlo hhi (crc16_lt body) h
    have hne : ¬ (lo + 256 * hi ≠ crc16 body) := not_not.mpr heq
    rw [if_neg hne]

/-- C20. For every 16-bit accumulator `a`, folding its low byte and then its
high byte into it gives zero; so the running CRC is 0 after `finalize_request`
has sent the checksum; and for every frame of `n` bytes, `8 ≤ n ≤ 255`,
`check_packet` accepts the frame if and only if `crc16_add` folded from 0 over
all `n` bytes, the two checksum bytes included, is 0. -/
theorem crc16_zero_residue :
    (∀ a, a < 65536 → crc16_add (a / 256) (crc16_add (a % 256) a) = 0) ∧
    (∀ s : Client, s.m_runningCrc < 65536 → (finalize_request s).m_runningCrc = 0) ∧
    (∀ (buffer : List Nat) (n : Nat) (s : Client), 8 ≤ n → n ≤ 255 → n ≤ buffer.length →
      (∀ b ∈ buffer, b < 256) →
      ((check_packet buffer n s).1 = some buffer ↔
        (buffer.take n).foldl (fun acc b => crc16_add b acc) 0 = 0)) :=
  ⟨crc16_add_residue, finalize_request_crc,
    fun buffer n s h8 _ hlen hb => check_packet_iff_residue buffer n s h8 hlen hb⟩

/-- C20 on the accumulator `0xBEEF`, on a client whose running CRC is
`0xBEEF`, and on the valid frame of a request with command 5. -/
theorem crc16_zero_residue_witness :
    crc16_add (0xBEEF / 256) (crc16_add (0xBEEF % 256) 0xBEEF) = 0 ∧
    (finalize_request { Client.blank with m_runningCrc := 0xBEEF }).m_runningCrc = 0 ∧
    ((check_packet [5, 0, 1, 0, 0, 0, 0, 0, 1, 0, 0x41, 0, 0, 0, 0x21, 6] 16 Client.blank).1
        = some [5, 0, 1, 0, 0, 0, 0, 0, 1, 0, 0x41, 0, 0, 0, 0x21, 6] ↔
      ([5, 0, 1, 0, 0, 0, 0, 0, 1, 0, 0x41, 0, 0, 0, 0x21, 6].take 16).foldl
        (fun acc b => crc16_add b acc) 0 = 0) :=
  ⟨crc16_zero_residue.1 0xBEEF (by decide),
   crc16_zero_residue.2.1 { Client.blank with m_runningCrc := 0xBEEF } (by decide),
   crc16_zero_residue.2.2 [5, 0, 1, 0, 0, 0, 0, 0, 1, 0, 0x41, 0, 0, 0, 0x21, 6] 16
     Client.blank (by decide) (by decide) (by decide) (by decide)⟩

end esp_link
